import Mathlib

/-!
Shallow embedding of the Cozo expression evaluator (`src/data/eval.rs`):
the partial evaluator `partial_eval`, the operator optimizer `optimize_ops`
and the row evaluator `row_eval`, together with the value model and the
operator registry they use.

`src/data/eval.rs` is embedded directly.  The modules it imports
(`data/value.rs`, `data/op.rs`, `data/expr.rs`, `data/tuple_set.rs`) are not
part of the provided sources; the definitions taken from them are modelled
from the specification and are marked `Modelled from the spec:` in their
doc comments.

Rust panics (`todo!`, `unreachable!`, `Option::unwrap` on `None`) are
modelled as `Fail.panicked`, kept distinct from the evaluator's own
`EvalError` results, so that "fails with an error value" and "panics" are
distinguishable propositions.
-/

/-- Modelled from the spec: an opaque slot coordinate into a row tuple
(`data/tuple_set.rs` is not among the provided sources). -/
structure TupleSetIdx where
  isKey : Bool
  tSet : Nat
  colIdx : Nat
deriving DecidableEq

/-- Modelled from the spec: identifier of a persistent table
(`data/tuple_set.rs` is not among the provided sources). -/
structure TableId where
  inRoot : Bool
  id : Nat
deriving DecidableEq

/-- Modelled from the spec: identifier of a column within a table
(`data/tuple_set.rs` is not among the provided sources). -/
abbrev ColId := Nat

/-- Modelled from the spec: an aggregate operator descriptor.  The evaluator
never interprets it (aggregates are handled by a collaborator), so only its
name is modelled. -/
structure AggOp where
  aname : String
deriving DecidableEq

/-- Modelled from the spec: the value model of `data/value.rs` (not among the
provided sources): `Null`, booleans, signed integers, floats, UTF-8 text,
heterogeneous lists and text-keyed dictionaries.  Mathematical `Int` stands
for `i64` (no claim in scope exercises overflow) and `Rat` stands for the
64-bit IEEE floats (no claim in scope depends on rounding); `Dict` is a
key-sorted association list, mirroring `BTreeMap<String, Value>` on its
canonical representatives. -/
inductive Value where
  | Null
  | Bool (b : Bool)
  | Int (i : Int)
  | Float (q : Rat)
  | Text (s : String)
  | List (l : List Value)
  | Dict (d : List (String × Value))

mutual

/-- Structural equality of values, used by `==`, by switch-arm matching and
by the `Null` tests of the evaluators. -/
def vbeq : Value → Value → Bool
  | .Null, .Null => true
  | .Bool a, .Bool b => a == b
  | .Int a, .Int b => a == b
  | .Float a, .Float b => a == b
  | .Text a, .Text b => a == b
  | .List a, .List b => vbeqList a b
  | .Dict a, .Dict b => vbeqDict a b
  | _, _ => false

/-- Pointwise equality of value lists. -/
def vbeqList : List Value → List Value → Bool
  | [], [] => true
  | a :: as, b :: bs => vbeq a b && vbeqList as bs
  | _, _ => false

/-- Pointwise equality of dictionary entries. -/
def vbeqDict : List (String × Value) → List (String × Value) → Bool
  | [], [] => true
  | (k, a) :: as, (k', b) :: bs => k == k' && vbeq a b && vbeqDict as bs
  | _, _ => false

end

mutual

theorem vbeq_eq : ∀ {a b : Value}, vbeq a b = true → a = b
  | .Null, .Null, _ => rfl
  | .Bool a, .Bool b, h => by simp only [vbeq, beq_iff_eq] at h; simp [h]
  | .Int a, .Int b, h => by simp only [vbeq, beq_iff_eq] at h; simp [h]
  | .Float a, .Float b, h => by simp only [vbeq, beq_iff_eq] at h; simp [h]
  | .Text a, .Text b, h => by simp only [vbeq, beq_iff_eq] at h; simp [h]
  | .List a, .List b, h => by
      simp only [vbeq] at h
      exact congrArg Value.List (vbeqList_eq h)
  | .Dict a, .Dict b, h => by
      simp only [vbeq] at h
      exact congrArg Value.Dict (vbeqDict_eq h)

theorem vbeqList_eq : ∀ {a b : List Value}, vbeqList a b = true → a = b
  | [], [], _ => rfl
  | a :: as, b :: bs, h => by
      simp only [vbeqList, Bool.and_eq_true] at h
      rw [vbeq_eq h.1, vbeqList_eq h.2]

theorem vbeqDict_eq : ∀ {a b : List (String × Value)}, vbeqDict a b = true → a = b
  | [], [], _ => rfl
  | (k, a) :: as, (k', b) :: bs, h => by
      simp only [vbeqDict, Bool.and_eq_true, beq_iff_eq] at h
      rw [h.1.1, vbeq_eq h.1.2, vbeqDict_eq h.2]

end

mutual

theorem vbeq_refl : ∀ (a : Value), vbeq a a = true
  | .Null => rfl
  | .Bool a => by simp [vbeq]
  | .Int a => by simp [vbeq]
  | .Float a => by simp [vbeq]
  | .Text a => by simp [vbeq]
  | .List a => by simp only [vbeq]; exact vbeqList_refl a
  | .Dict a => by simp only [vbeq]; exact vbeqDict_refl a

theorem vbeqList_refl : ∀ (a : List Value), vbeqList a a = true
  | [] => rfl
  | a :: as => by
      simp only [vbeqList, Bool.and_eq_true]
      exact ⟨vbeq_refl a, vbeqList_refl as⟩

theorem vbeqDict_refl : ∀ (a : List (String × Value)), vbeqDict a a = true
  | [] => rfl
  | (k, a) :: as => by
      simp only [vbeqDict, Bool.and_eq_true, beq_self_eq_true]
      exact ⟨⟨trivial, vbeq_refl a⟩, vbeqDict_refl as⟩

end

instance : DecidableEq Value := fun a b =>
  decidable_of_iff (vbeq a b = true) ⟨vbeq_eq, fun h => h ▸ vbeq_refl a⟩

/-- The error enumeration of `EvalError` in `src/data/eval.rs` (the
`Parse` pass-through variant carries an external parser error and is not
reachable from the three evaluator passes). -/
inductive EvalError where
  | unresolvedVariable (name : String)
  | unresolveTableCol (t : TableId) (c : ColId)
  | unresolveTupleIdx (i : TupleSetIdx)
  | fieldAccess (f : String) (v : Value)
  | indexAccess (i : Nat) (v : Value)
  | opTypeMismatch (name : String) (args : List Value)
  | arityMismatch (name : String) (given : Nat)
  | optimizedBeforePartialEval
  | incompleteEvaluation (desc : String)

/-- Outcome discriminator: an evaluator either returns an `EvalError` as
data (`err`) or hits a Rust panic (`todo!`, `unreachable!`, `unwrap`),
modelled as `panicked`. -/
inductive Fail where
  | err (e : EvalError)
  | panicked (msg : String)

/-- Result type of the evaluator passes. -/
abbrev Res (α : Type) := Except Fail α

/-- Embeds an operator-level error into an evaluator result. -/
def liftE : Except EvalError α → Res α
  | .ok a => .ok a
  | .error e => .error (.err e)

/-- Modelled from the spec: the operators of the registry in `data/op.rs`
(not among the provided sources) that the optimizer and the evaluators
treat specially; the specification names no further registry member. -/
inductive Op where
  | add | sub | mul | div | pow | mod | strcat
  | eq | ne | gt | ge | lt | le
  | opNot | minus | isNull | notNull
  | coalesce | opOr | opAnd
deriving DecidableEq

/-- Modelled from the spec: each operator's canonical name (`op.name()`). -/
def op_name : Op → String
  | .add => "+"
  | .sub => "-"
  | .mul => "*"
  | .div => "/"
  | .pow => "**"
  | .mod => "%"
  | .strcat => "++"
  | .eq => "=="
  | .ne => "!="
  | .gt => ">"
  | .ge => ">="
  | .lt => "<"
  | .le => "<="
  | .opNot => "!"
  | .minus => "--"
  | .isNull => "is_null"
  | .notNull => "not_null"
  | .coalesce => "~"
  | .opOr => "||"
  | .opAnd => "&&"

/-- Modelled from the spec: fixed arity of each operator (`op.arity()`);
`none` means variadic (`And`, `Or`, `Coalesce`). -/
def op_arity : Op → Option Nat
  | .opNot | .minus | .isNull | .notNull => some 1
  | .coalesce | .opOr | .opAnd => none
  | _ => some 2

/-- Modelled from the spec: the strict-null-propagation flag
(`op.non_null_args()`): true for arithmetic, comparison and unary ops,
false for the null-tolerant and short-circuit ops. -/
def non_null_args : Op → Bool
  | .isNull | .notNull | .coalesce | .opOr | .opAnd => false
  | _ => true

/-- Total comparison on integers. -/
def cmpI (a b : Int) : Ordering :=
  if a < b then .lt else if a = b then .eq else .gt

/-- Total comparison on rationals (the float stand-in). -/
def cmpQ (a b : Rat) : Ordering :=
  if a < b then .lt else if a = b then .eq else .gt

/-- Total comparison on booleans (`false < true`). -/
def cmpB : Bool → Bool → Ordering
  | false, false => .eq
  | false, true => .lt
  | true, false => .gt
  | true, true => .eq

/-- Total comparison on text. -/
def cmpS (a b : String) : Ordering :=
  if a < b then .lt else if a = b then .eq else .gt

/-- Rank of a value's category in the canonical total order. -/
def vrank : Value → Nat
  | .Null => 0
  | .Bool _ => 1
  | .Int _ => 2
  | .Float _ => 3
  | .Text _ => 4
  | .List _ => 5
  | .Dict _ => 6

mutual

/-- Modelled from the spec: the canonical total ordering of values
(`data/value.rs` is not among the provided sources): by category rank,
then pointwise on contents; mixed `Int`/`Float` compare after promotion. -/
def vcompare : Value → Value → Ordering
  | .Bool a, .Bool b => cmpB a b
  | .Int a, .Int b => cmpI a b
  | .Int a, .Float b => cmpQ (a : Rat) b
  | .Float a, .Int b => cmpQ a (b : Rat)
  | .Float a, .Float b => cmpQ a b
  | .Text a, .Text b => cmpS a b
  | .List a, .List b => vcompareList a b
  | .Dict a, .Dict b => vcompareDict a b
  | a, b => cmpI (vrank a) (vrank b)

/-- Lexicographic ordering of value lists. -/
def vcompareList : List Value → List Value → Ordering
  | [], [] => .eq
  | [], _ :: _ => .lt
  | _ :: _, [] => .gt
  | a :: as, b :: bs =>
      match vcompare a b with
      | .eq => vcompareList as bs
      | o => o

/-- Lexicographic ordering of dictionary entries. -/
def vcompareDict : List (String × Value) → List (String × Value) → Ordering
  | [], [] => .eq
  | [], _ :: _ => .lt
  | _ :: _, [] => .gt
  | (k, a) :: as, (k', b) :: bs =>
      match cmpS k k' with
      | .eq =>
          match vcompare a b with
          | .eq => vcompareDict as bs
          | o => o
      | o => o

end

/-- Is the value `Null`? -/
def is_vnull : Value → Bool
  | .Null => true
  | _ => false

/-- Modelled from the spec: `+` with `Int → Float` promotion. -/
def vadd : Value → Value → Except EvalError Value
  | .Int a, .Int b => .ok (.Int (a + b))
  | .Int a, .Float b => .ok (.Float ((a : Rat) + b))
  | .Float a, .Int b => .ok (.Float (a + (b : Rat)))
  | .Float a, .Float b => .ok (.Float (a + b))
  | a, b => .error (.opTypeMismatch "+" [a, b])

/-- Modelled from the spec: `-` with promotion. -/
def vsub : Value → Value → Except EvalError Value
  | .Int a, .Int b => .ok (.Int (a - b))
  | .Int a, .Float b => .ok (.Float ((a : Rat) - b))
  | .Float a, .Int b => .ok (.Float (a - (b : Rat)))
  | .Float a, .Float b => .ok (.Float (a - b))
  | a, b => .error (.opTypeMismatch "-" [a, b])

/-- Modelled from the spec: `*` with promotion. -/
def vmul : Value → Value → Except EvalError Value
  | .Int a, .Int b => .ok (.Int (a * b))
  | .Int a, .Float b => .ok (.Float ((a : Rat) * b))
  | .Float a, .Int b => .ok (.Float (a * (b : Rat)))
  | .Float a, .Float b => .ok (.Float (a * b))
  | a, b => .error (.opTypeMismatch "*" [a, b])

/-- Modelled from the spec: `/`; integer division truncates toward zero and
fails on a zero divisor; float division is the rational stand-in (the IEEE
result at a zero divisor is outside the model; no claim depends on it). -/
def vdiv : Value → Value → Except EvalError Value
  | .Int a, .Int b =>
      if b = 0 then .error (.opTypeMismatch "/" [.Int a, .Int b])
      else .ok (.Int (Int.tdiv a b))
  | .Int a, .Float b => .ok (.Float ((a : Rat) / b))
  | .Float a, .Int b => .ok (.Float (a / (b : Rat)))
  | .Float a, .Float b => .ok (.Float (a / b))
  | a, b => .error (.opTypeMismatch "/" [a, b])

/-- Modelled from the spec: `%`; integer remainder fails on a zero divisor;
the float case is the truncated remainder on the rational stand-in. -/
def vmod : Value → Value → Except EvalError Value
  | .Int a, .Int b =>
      if b = 0 then .error (.opTypeMismatch "%" [.Int a, .Int b])
      else .ok (.Int (Int.tmod a b))
  | .Float a, .Float b =>
      if b = 0 then .error (.opTypeMismatch "%" [.Float a, .Float b])
      else .ok (.Float (a - b * (((a / b) : Rat).floor : Int)))
  | .Int a, .Float b =>
      if b = 0 then .error (.opTypeMismatch "%" [.Int a, .Float b])
      else .ok (.Float ((a : Rat) - b * ((((a : Rat) / b) : Rat).floor : Int)))
  | .Float a, .Int b =>
      if b = 0 then .error (.opTypeMismatch "%" [.Float a, .Int b])
      else .ok (.Float (a - (b : Rat) * (((a / (b : Rat)) : Rat).floor : Int)))
  | a, b => .error (.opTypeMismatch "%" [a, b])

/-- Modelled from the spec: `**`; defined for non-negative integer
exponents (fractional IEEE powers are outside the rational stand-in; no
claim depends on them). -/
def vpow : Value → Value → Except EvalError Value
  | .Int a, .Int b =>
      if 0 ≤ b then .ok (.Int (a ^ b.toNat))
      else .error (.opTypeMismatch "**" [.Int a, .Int b])
  | .Float a, .Int b =>
      if 0 ≤ b then .ok (.Float (a ^ b.toNat))
      else .error (.opTypeMismatch "**" [.Float a, .Int b])
  | a, b => .error (.opTypeMismatch "**" [a, b])

/-- Modelled from the spec: `++` concatenates text; both sides must be
`Text`. -/
def vstrcat : Value → Value → Except EvalError Value
  | .Text a, .Text b => .ok (.Text (a ++ b))
  | a, b => .error (.opTypeMismatch "++" [a, b])

/-- Modelled from the spec: ordering comparison of two non-null operands;
identically-categorised operands use the total ordering, mixed `Int`/`Float`
promote, cross-category comparison fails. -/
def vcmp (nm : String) : Value → Value → Except EvalError Ordering
  | .Bool a, .Bool b => .ok (cmpB a b)
  | .Int a, .Int b => .ok (cmpI a b)
  | .Int a, .Float b => .ok (cmpQ (a : Rat) b)
  | .Float a, .Int b => .ok (cmpQ a (b : Rat))
  | .Float a, .Float b => .ok (cmpQ a b)
  | .Text a, .Text b => .ok (cmpS a b)
  | .List a, .List b => .ok (vcompareList a b)
  | .Dict a, .Dict b => .ok (vcompareDict a b)
  | a, b => .error (.opTypeMismatch nm [a, b])

/-- Modelled from the spec: `!` on booleans. -/
def vnot : Value → Except EvalError Value
  | .Bool b => .ok (.Bool (!b))
  | v => .error (.opTypeMismatch "!" [v])

/-- Modelled from the spec: unary `-` on numbers. -/
def vminus : Value → Except EvalError Value
  | .Int a => .ok (.Int (-a))
  | .Float a => .ok (.Float (-a))
  | v => .error (.opTypeMismatch "--" [v])

/-- Modelled from the spec: the three-valued conjunction step of §4.5:
`false` absorbs, `true` yields the second operand, `Null` yields `Null`
unless the second operand is `false`; non-boolean operands fail. -/
def and3 : Value → Value → Except EvalError Value
  | .Bool false, _ => .ok (.Bool false)
  | .Bool true, .Bool x => .ok (.Bool x)
  | .Bool true, .Null => .ok .Null
  | .Bool true, v => .error (.opTypeMismatch "&&" [.Bool true, v])
  | .Null, .Bool false => .ok (.Bool false)
  | .Null, .Bool true => .ok .Null
  | .Null, .Null => .ok .Null
  | .Null, v => .error (.opTypeMismatch "&&" [.Null, v])
  | a, v => .error (.opTypeMismatch "&&" [a, v])

/-- Modelled from the spec: the three-valued disjunction step of §4.5. -/
def or3 : Value → Value → Except EvalError Value
  | .Bool true, _ => .ok (.Bool true)
  | .Bool false, .Bool x => .ok (.Bool x)
  | .Bool false, .Null => .ok .Null
  | .Bool false, v => .error (.opTypeMismatch "||" [.Bool false, v])
  | .Null, .Bool true => .ok (.Bool true)
  | .Null, .Bool false => .ok .Null
  | .Null, .Null => .ok .Null
  | .Null, v => .error (.opTypeMismatch "||" [.Null, v])
  | a, v => .error (.opTypeMismatch "||" [a, v])

/-- Modelled from the spec: the coalescing step of §4.5: a non-null first
operand wins, otherwise the second operand is taken as is. -/
def coalesce2 : Value → Value → Except EvalError Value
  | .Null, v => .ok v
  | a, _ => .ok a

/-- Left fold of a three-valued step function over realized values,
propagating operator errors. -/
def sc_fold (f : Value → Value → Except EvalError Value) :
    Value → List Value → Except EvalError Value
  | acc, [] => .ok acc
  | acc, v :: vs =>
      match f acc v with
      | .ok w => sc_fold f w vs
      | .error e => .error e

/-- Modelled from the spec: the typed fast path `eval_two_non_null` of the
specialized binary operators. -/
def eval_two_non_null : Op → Value → Value → Except EvalError Value
  | .add, a, b => vadd a b
  | .sub, a, b => vsub a b
  | .mul, a, b => vmul a b
  | .div, a, b => vdiv a b
  | .pow, a, b => vpow a b
  | .mod, a, b => vmod a b
  | .strcat, a, b => vstrcat a b
  | .eq, a, b => .ok (.Bool (decide (a = b)))
  | .ne, a, b => .ok (.Bool (decide (a ≠ b)))
  | .gt, a, b =>
      match vcmp ">" a b with
      | .ok o => .ok (.Bool (decide (o = .gt)))
      | .error e => .error e
  | .ge, a, b =>
      match vcmp ">=" a b with
      | .ok o => .ok (.Bool (decide (o ≠ .lt)))
      | .error e => .error e
  | .lt, a, b =>
      match vcmp "<" a b with
      | .ok o => .ok (.Bool (decide (o = .lt)))
      | .error e => .error e
  | .le, a, b =>
      match vcmp "<=" a b with
      | .ok o => .ok (.Bool (decide (o ≠ .gt)))
      | .error e => .error e
  | op, a, b => .error (.opTypeMismatch (op_name op) [a, b])

/-- Modelled from the spec: the typed fast path `eval_one_non_null` of the
specialized unary operators. -/
def eval_one_non_null : Op → Value → Except EvalError Value
  | .opNot, v => vnot v
  | .minus, v => vminus v
  | op, v => .error (.opTypeMismatch (op_name op) [v])

/-- Modelled from the spec: the null-tolerant `eval_one` path of `IsNull`
and `NotNull`, which never fails and never returns `Null`. -/
def eval_one : Op → Value → Except EvalError Value
  | .isNull, v => .ok (.Bool (is_vnull v))
  | .notNull, v => .ok (.Bool (!is_vnull v))
  | op, v => .error (.opTypeMismatch (op_name op) [v])

/-- Modelled from the spec: the generic `op.eval` over a realized argument
vector: binary and unary operators demand their exact argument count and
dispatch to the typed fast paths; `And`/`Or`/`Coalesce` fold their
three-valued step over the whole vector. -/
def op_eval (op : Op) (args : List Value) : Except EvalError Value :=
  match op with
  | .opAnd => sc_fold and3 (.Bool true) args
  | .opOr => sc_fold or3 (.Bool false) args
  | .coalesce => sc_fold coalesce2 .Null args
  | .isNull | .notNull =>
      match args with
      | [v] => eval_one op v
      | _ => .error (.arityMismatch (op_name op) args.length)
  | .opNot | .minus =>
      match args with
      | [v] => eval_one_non_null op v
      | _ => .error (.arityMismatch (op_name op) args.length)
  | _ =>
      match args with
      | [a, b] => eval_two_non_null op a b
      | _ => .error (.arityMismatch (op_name op) args.length)

/-- The expression tree of `data/expr.rs` as used by `src/data/eval.rs`:
constants, names, column and tuple-slot references, structural composites,
generic and aggregate application, accessors, conditionals, switch, and the
specialized nodes produced by the optimizer.  Boxed tuples of the source
(`Box<(Expr, Expr)>` etc.) are flattened into constructor fields. -/
inductive Expr where
  | Const (v : Value)
  | Variable (name : String)
  | TableCol (t : TableId) (c : ColId)
  | TupleSetIdx (i : TupleSetIdx)
  | List (l : List Expr)
  | Dict (d : List (String × Expr))
  | Apply (op : Op) (args : List Expr)
  | ApplyAgg (op : AggOp) (aArgs : List Expr) (args : List Expr)
  | FieldAcc (f : String) (arg : Expr)
  | IdxAcc (i : Nat) (arg : Expr)
  | IfExpr (cond thenPart elsePart : Expr)
  | SwitchExpr (pairs : List (Expr × Expr))
  | Add (a b : Expr)
  | Sub (a b : Expr)
  | Mul (a b : Expr)
  | Div (a b : Expr)
  | Pow (a b : Expr)
  | Mod (a b : Expr)
  | StrCat (a b : Expr)
  | Eq (a b : Expr)
  | Ne (a b : Expr)
  | Gt (a b : Expr)
  | Ge (a b : Expr)
  | Lt (a b : Expr)
  | Le (a b : Expr)
  | Not (a : Expr)
  | Minus (a : Expr)
  | IsNull (a : Expr)
  | NotNull (a : Expr)
  | Coalesce (a b : Expr)
  | Or (a b : Expr)
  | And (a b : Expr)

/-- The symbolic context trait `ExprEvalContext`: name resolution and
binding-field column resolution. -/
structure ExprEvalContext where
  resolve : String → Option Expr
  resolveTableCol : String → String → Option (TableId × ColId)

/-- The trivial symbolic context (the `impl ExprEvalContext for ()`):
rejects every lookup. -/
def nullExprCtx : ExprEvalContext :=
  ⟨fun _ => none, fun _ _ => none⟩

/-- The row context trait `RowEvalContext`: tuple-slot resolution. -/
abbrev RowEvalContext := TupleSetIdx → Except EvalError Value

/-- The trivial row context (the `impl RowEvalContext for ()`): rejects
every slot. -/
def nullRowCtx : RowEvalContext := fun i => .error (.unresolveTupleIdx i)

mutual

/-- Modelled from the spec: `Value::from(expr)`, used only to build the
payload of `FieldAccess`/`IndexAccess` errors; realized constants and
structural literals convert to their value, residual nodes degrade to
`Null` (the claims in scope only inspect the constant case). -/
def expr_to_value : Expr → Value
  | .Const v => v
  | .List l => .List (expr_to_value_list l)
  | .Dict d => .Dict (expr_to_value_dict d)
  | _ => .Null

/-- Elementwise conversion of expression lists for error payloads. -/
def expr_to_value_list : List Expr → List Value
  | [] => []
  | a :: as => expr_to_value a :: expr_to_value_list as

/-- Entrywise conversion of expression dictionaries for error payloads. -/
def expr_to_value_dict : List (String × Expr) → List (String × Value)
  | [] => []
  | (k, a) :: as => (k, expr_to_value a) :: expr_to_value_dict as

end

/-- `d.remove(&f).unwrap_or(Value::Null)` on a realized dictionary. -/
def dict_remove (d : List (String × Value)) (f : String) : Value :=
  (d.lookup f).getD .Null

/-- The `FieldAcc` dispatch of `partial_eval` (`src/data/eval.rs:118-130`)
on the already-partially-evaluated argument: null propagates, realized and
literal dictionaries are looked up, residual-shaped nodes are preserved
under a residual `FieldAcc`, anything else is a `FieldAccess` error. -/
def field_acc_post (f : String) : Expr → Res Expr
  | .Const .Null => .ok (.Const .Null)
  | .Const (.Dict d) => .ok (.Const (dict_remove d f))
  | .IdxAcc i a => .ok (.FieldAcc f (.IdxAcc i a))
  | .FieldAcc g a => .ok (.FieldAcc f (.FieldAcc g a))
  | .TableCol t c => .ok (.FieldAcc f (.TableCol t c))
  | .Apply op args => .ok (.FieldAcc f (.Apply op args))
  | .ApplyAgg op aArgs args => .ok (.FieldAcc f (.ApplyAgg op aArgs args))
  | .Dict d => .ok (((d.lookup f).getD (.Const .Null)))
  | v => .error (.err (.fieldAccess f (expr_to_value v)))

/-- The `IdxAcc` dispatch of `partial_eval` (`src/data/eval.rs:132-157`):
null propagates, realized and literal lists are indexed (`swap_remove`
returns the element; out of range yields `Null`), residual-shaped nodes
are preserved, anything else is an `IndexAccess` error. -/
def idx_acc_post (i : Nat) : Expr → Res Expr
  | .Const .Null => .ok (.Const .Null)
  | .Const (.List l) => .ok (.Const ((l[i]?).getD .Null))
  | .List l => .ok ((l[i]?).getD (.Const .Null))
  | .IdxAcc j a => .ok (.IdxAcc i (.IdxAcc j a))
  | .FieldAcc g a => .ok (.IdxAcc i (.FieldAcc g a))
  | .TableCol t c => .ok (.IdxAcc i (.TableCol t c))
  | .Apply op args => .ok (.IdxAcc i (.Apply op args))
  | .ApplyAgg op aArgs args => .ok (.IdxAcc i (.ApplyAgg op aArgs args))
  | v => .error (.err (.indexAccess i (expr_to_value v)))

/-- Does the arity check of `partial_eval`'s `Apply` case pass? -/
def arity_ok (op : Op) (n : Nat) : Bool :=
  match op_arity op with
  | some m => m == n
  | none => true

/-- Is the expression a `Const`? (`matches!(v, Expr::Const(_))`). -/
def is_const : Expr → Bool
  | .Const _ => true
  | _ => false

/-- Is the expression `Const(Null)`? -/
def is_const_null : Expr → Bool
  | .Const .Null => true
  | _ => false

/-- Extracts the values of a list of `Const` nodes; `none` when a non-const
slipped in (the `unreachable!()` of `src/data/eval.rs:190`). -/
def consts_of : List Expr → Option (List Value)
  | [] => some []
  | .Const v :: rest =>
      match consts_of rest with
      | some vs => some (v :: vs)
      | none => none
  | _ :: _ => none

/-- Modelled from the spec: the three-valued step function of the dedicated
`And`/`Or`/`Coalesce` evaluators of §4.5 (`data/op.rs` is not among the
provided sources). -/
def sc_step : Op → Value → Value → Except EvalError Value
  | .opAnd, a, b => and3 a b
  | .opOr, a, b => or3 a b
  | .coalesce, a, b => coalesce2 a b
  | op, a, b => .error (.opTypeMismatch (op_name op) [a, b])

/-- Modelled from the spec: the folding seed of each short-circuit
operator: the neutral element of its step function. -/
def sc_init : Op → Value
  | .opAnd => .Bool true
  | .opOr => .Bool false
  | _ => .Null

/-- Modelled from the spec: is the short-circuit result already decided by
the accumulated value (`false` for `And`, `true` for `Or`, any non-null
value for `Coalesce`)? -/
def sc_decided : Op → Value → Bool
  | .opAnd, v => v == .Bool false
  | .opOr, v => v == .Bool true
  | .coalesce, v => !is_vnull v
  | _, _ => false

/-- Modelled from the spec: is the first operand a legal but undecided
input of the short-circuit operator, so that the second operand must be
evaluated (`true`/`Null` for `And`, `false`/`Null` for `Or`, `Null` for
`Coalesce`)?  Anything else is an `OpTypeMismatch`. -/
def sc_continue : Op → Value → Bool
  | .opAnd, .Bool true => true
  | .opAnd, .Null => true
  | .opOr, .Bool false => true
  | .opOr, .Null => true
  | .coalesce, .Null => true
  | _, _ => false

mutual

/-- `Expr::partial_eval` (`src/data/eval.rs:89-236`).  The extra `Nat`
argument is a resolution-depth budget: the source re-evaluates
context-resolved expressions in the binding-field path
(`src/data/eval.rs:111-114`), which need not terminate for adversarial
contexts; the budget decreases only on that path and exhausting it is
modelled as a panic.  Every claim in scope either quantifies over the
budget or never touches that path. -/
def partial_eval (ctx : ExprEvalContext) : Nat → Expr → Res Expr
  | _, .Const v => .ok (.Const v)
  | _, .TableCol t c => .ok (.TableCol t c)
  | _, .TupleSetIdx i => .ok (.TupleSetIdx i)
  | fuel, .List l =>
      match peval_list ctx fuel l with
      | .ok l' => .ok (.List l')
      | .error e => .error e
  | fuel, .Dict d =>
      match peval_dict ctx fuel d with
      | .ok d' => .ok (.Dict d')
      | .error e => .error e
  | _, .Variable x =>
      match ctx.resolve x with
      | some e => .ok e
      | none => .error (.err (.unresolvedVariable x))
  | fuel, .FieldAcc f arg =>
      match arg with
      | .Variable x =>
          match ctx.resolveTableCol x f with
          | some (t, c) => .ok (.TableCol t c)
          | none =>
              match ctx.resolve x with
              | none => .error (.err (.unresolvedVariable x))
              | some e =>
                  match fuel with
                  | 0 => .error (.panicked "resolution depth exceeded")
                  | n + 1 =>
                      match partial_eval ctx n e with
                      | .ok e' => field_acc_post f e'
                      | .error err => .error err
      | a =>
          match partial_eval ctx fuel a with
          | .ok a' => field_acc_post f a'
          | .error e => .error e
  | fuel, .IdxAcc i arg =>
      match partial_eval ctx fuel arg with
      | .ok a' => idx_acc_post i a'
      | .error e => .error e
  | fuel, .Apply op args =>
      if arity_ok op args.length then
        match op with
        | .opAnd => peval_sc_go ctx fuel .opAnd args (sc_init .opAnd)
        | .opOr => peval_sc_go ctx fuel .opOr args (sc_init .opOr)
        | .coalesce => peval_sc_go ctx fuel .coalesce args (sc_init .coalesce)
        | _ => peval_apply_go ctx fuel op args false []
      else .error (.err (.arityMismatch (op_name op) args.length))
  | fuel, .ApplyAgg op aArgs args =>
      match peval_list ctx fuel aArgs with
      | .error e => .error e
      | .ok aArgs' =>
          match peval_list ctx fuel args with
          | .error e => .error e
          | .ok args' => .ok (.ApplyAgg op aArgs' args')
  | fuel, .IfExpr c t e =>
      match partial_eval ctx fuel c with
      | .error err => .error err
      | .ok (.Const (.Bool true)) => partial_eval ctx fuel t
      | .ok (.Const (.Bool false)) => partial_eval ctx fuel e
      | .ok (.Const .Null) => partial_eval ctx fuel e
      | .ok c' =>
          match partial_eval ctx fuel t with
          | .error err => .error err
          | .ok t' =>
              match partial_eval ctx fuel e with
              | .error err => .error err
              | .ok e' => .ok (.IfExpr c' t' e')
  | _, .SwitchExpr [] => .error (.panicked "switch expression without branches")
  | fuel, .SwitchExpr ((s, sb) :: arms) =>
      match partial_eval ctx fuel s with
      | .error e => .error e
      | .ok (.Const sv) => peval_switch_arms ctx fuel sv arms
      | .ok s' =>
          match partial_eval ctx fuel sb with
          | .error e => .error e
          | .ok sb' =>
              match peval_pairs ctx fuel arms with
              | .error e => .error e
              | .ok arms' => .ok (.SwitchExpr ((s', sb') :: arms'))
  | _, .Add _ _ => .error (.err .optimizedBeforePartialEval)
  | _, .Sub _ _ => .error (.err .optimizedBeforePartialEval)
  | _, .Mul _ _ => .error (.err .optimizedBeforePartialEval)
  | _, .Div _ _ => .error (.err .optimizedBeforePartialEval)
  | _, .Pow _ _ => .error (.err .optimizedBeforePartialEval)
  | _, .Mod _ _ => .error (.err .optimizedBeforePartialEval)
  | _, .StrCat _ _ => .error (.err .optimizedBeforePartialEval)
  | _, .Eq _ _ => .error (.err .optimizedBeforePartialEval)
  | _, .Ne _ _ => .error (.err .optimizedBeforePartialEval)
  | _, .Gt _ _ => .error (.err .optimizedBeforePartialEval)
  | _, .Ge _ _ => .error (.err .optimizedBeforePartialEval)
  | _, .Lt _ _ => .error (.err .optimizedBeforePartialEval)
  | _, .Le _ _ => .error (.err .optimizedBeforePartialEval)
  | _, .Not _ => .error (.err .optimizedBeforePartialEval)
  | _, .Minus _ => .error (.err .optimizedBeforePartialEval)
  | _, .IsNull _ => .error (.err .optimizedBeforePartialEval)
  | _, .NotNull _ => .error (.err .optimizedBeforePartialEval)
  | _, .Coalesce _ _ => .error (.err .optimizedBeforePartialEval)
  | _, .Or _ _ => .error (.err .optimizedBeforePartialEval)
  | _, .And _ _ => .error (.err .optimizedBeforePartialEval)
termination_by fuel e => (fuel, sizeOf e)

/-- Elementwise partial evaluation of `Expr::List` members. -/
def peval_list (ctx : ExprEvalContext) : Nat → List Expr → Res (List Expr)
  | _, [] => .ok []
  | fuel, a :: as =>
      match partial_eval ctx fuel a with
      | .error e => .error e
      | .ok a' =>
          match peval_list ctx fuel as with
          | .error e => .error e
          | .ok as' => .ok (a' :: as')
termination_by fuel l => (fuel, sizeOf l)

/-- Entrywise partial evaluation of `Expr::Dict` members. -/
def peval_dict (ctx : ExprEvalContext) :
    Nat → List (String × Expr) → Res (List (String × Expr))
  | _, [] => .ok []
  | fuel, (k, a) :: as =>
      match partial_eval ctx fuel a with
      | .error e => .error e
      | .ok a' =>
          match peval_dict ctx fuel as with
          | .error e => .error e
          | .ok as' => .ok ((k, a') :: as')
termination_by fuel d => (fuel, sizeOf d)

/-- Pairwise partial evaluation of switch arms. -/
def peval_pairs (ctx : ExprEvalContext) :
    Nat → List (Expr × Expr) → Res (List (Expr × Expr))
  | _, [] => .ok []
  | fuel, (m, b) :: rest =>
      match partial_eval ctx fuel m with
      | .error e => .error e
      | .ok m' =>
          match partial_eval ctx fuel b with
          | .error e => .error e
          | .ok b' =>
              match peval_pairs ctx fuel rest with
              | .error e => .error e
              | .ok rest' => .ok ((m', b') :: rest')
termination_by fuel ps => (fuel, sizeOf ps)

/-- The generic-`Apply` loop of `partial_eval` (`src/data/eval.rs:170-194`),
kept verbatim including its handling of non-constant arguments: they set
`has_unevaluated` but are *not* pushed onto `eval_args`, so the residual
`Apply` that is returned keeps only the constant arguments. -/
def peval_apply_go (ctx : ExprEvalContext) :
    Nat → Op → List Expr → Bool → List Expr → Res Expr
  | _, op, [], hasUneval, acc =>
      if hasUneval then .ok (.Apply op acc)
      else
        match consts_of acc with
        | some vals =>
            match op_eval op vals with
            | .ok v => .ok (.Const v)
            | .error e => .error (.err e)
        | none => .error (.panicked "unreachable")
  | fuel, op, a :: rest, hasUneval, acc =>
      match partial_eval ctx fuel a with
      | .error e => .error e
      | .ok v =>
          if !is_const v then
            peval_apply_go ctx fuel op rest true acc
          else if non_null_args op && is_const_null v then
            .ok (.Const .Null)
          else
            peval_apply_go ctx fuel op rest hasUneval (acc ++ [v])
termination_by fuel op args hasUneval acc => (fuel, sizeOf args)

/-- Modelled from the spec: the dedicated n-ary partial evaluators
`partial_eval_and` / `partial_eval_or` / `partial_eval_coalesce` of
`data/op.rs` (not among the provided sources), following §4.5: arguments
are partially evaluated left to right, constants are folded through the
three-valued step, a decided result short-circuits the remaining
arguments, and a residual argument ends folding — the remaining arguments
are partially evaluated and a residual `Apply` is returned carrying the
folded constant (unless it is still the neutral seed) and the residuals. -/
def peval_sc_go (ctx : ExprEvalContext) :
    Nat → Op → List Expr → Value → Res Expr
  | _, _, [], acc => .ok (.Const acc)
  | fuel, op, a :: rest, acc =>
      match partial_eval ctx fuel a with
      | .error e => .error e
      | .ok (.Const v) =>
          match sc_step op acc v with
          | .error e => .error (.err e)
          | .ok w =>
              if sc_decided op w then .ok (.Const w)
              else peval_sc_go ctx fuel op rest w
      | .ok r =>
          match peval_list ctx fuel rest with
          | .error e => .error e
          | .ok rest' =>
              .ok (.Apply op ((if acc = sc_init op then [] else [.Const acc]) ++ r :: rest'))
termination_by fuel op args acc => (fuel, sizeOf args)

/-- Modelled from the spec: the arm walk of `partial_eval_switch_expr`
(`data/op.rs` is not among the provided sources): with a constant
scrutinee, constant matches are compared in order, the first equal one
selects its branch, the final pair is the default; a residual match ends
the walk with a residual `SwitchExpr`. -/
def peval_switch_arms (ctx : ExprEvalContext) :
    Nat → Value → List (Expr × Expr) → Res Expr
  | _, _, [] => .ok (.Const .Null)
  | fuel, _, [(_, dflt)] => partial_eval ctx fuel dflt
  | fuel, sv, (m, b) :: rest =>
      match partial_eval ctx fuel m with
      | .error e => .error e
      | .ok (.Const mv) =>
          if mv = sv then partial_eval ctx fuel b
          else peval_switch_arms ctx fuel sv rest
      | .ok m' =>
          match partial_eval ctx fuel b with
          | .error e => .error e
          | .ok b' =>
              match peval_pairs ctx fuel rest with
              | .error e => .error e
              | .ok rest' =>
                  .ok (.SwitchExpr ((.Const sv, .Const .Null) :: (m', b') :: rest'))
termination_by fuel sv arms => (fuel, sizeOf arms)

end

mutual

/-- `Expr::optimize_ops` (`src/data/eval.rs:237-339`): rewrites generic
`Apply` nodes bearing a specialized operator into the specialized node,
folding `And`/`Or`/`Coalesce` argument lists left-associatively, recursing
structurally elsewhere and passing every other node — including
pre-existing specialized nodes — through unchanged. -/
def optimize_ops : Expr → Res Expr
  | .List l =>
      match opt_list l with
      | .ok l' => .ok (.List l')
      | .error e => .error e
  | .Dict d =>
      match opt_dict d with
      | .ok d' => .ok (.Dict d')
      | .error e => .error e
  | .Apply op args =>
      match op with
      | .add => opt_bin .Add args
      | .sub => opt_bin .Sub args
      | .mul => opt_bin .Mul args
      | .div => opt_bin .Div args
      | .pow => opt_bin .Pow args
      | .mod => opt_bin .Mod args
      | .strcat => opt_bin .StrCat args
      | .eq => opt_bin .Eq args
      | .ne => opt_bin .Ne args
      | .gt => opt_bin .Gt args
      | .ge => opt_bin .Ge args
      | .lt => opt_bin .Lt args
      | .le => opt_bin .Le args
      | .opNot => opt_un .Not args
      | .minus => opt_un .Minus args
      | .isNull => opt_un .IsNull args
      | .notNull => opt_un .NotNull args
      | .coalesce => opt_nary .Coalesce args
      | .opOr => opt_nary .Or args
      | .opAnd => opt_nary .And args
  | .ApplyAgg op aArgs args =>
      match opt_list aArgs with
      | .error e => .error e
      | .ok aArgs' =>
          match opt_list args with
          | .error e => .error e
          | .ok args' => .ok (.ApplyAgg op aArgs' args')
  | .FieldAcc f a =>
      match optimize_ops a with
      | .error e => .error e
      | .ok a' => .ok (.FieldAcc f a')
  | .IdxAcc i a =>
      match optimize_ops a with
      | .error e => .error e
      | .ok a' => .ok (.IdxAcc i a')
  | .IfExpr c t e =>
      match optimize_ops c with
      | .error err => .error err
      | .ok c' =>
          match optimize_ops t with
          | .error err => .error err
          | .ok t' =>
              match optimize_ops e with
              | .error err => .error err
              | .ok e' => .ok (.IfExpr c' t' e')
  | .SwitchExpr ps =>
      match opt_pairs ps with
      | .ok ps' => .ok (.SwitchExpr ps')
      | .error e => .error e
  | e => .ok e
termination_by e => sizeOf e

/-- Elementwise optimization of `Expr::List` members. -/
def opt_list : List Expr → Res (List Expr)
  | [] => .ok []
  | a :: as =>
      match optimize_ops a with
      | .error e => .error e
      | .ok a' =>
          match opt_list as with
          | .error e => .error e
          | .ok as' => .ok (a' :: as')
termination_by l => sizeOf l

/-- Entrywise optimization of `Expr::Dict` members. -/
def opt_dict : List (String × Expr) → Res (List (String × Expr))
  | [] => .ok []
  | (k, a) :: as =>
      match optimize_ops a with
      | .error e => .error e
      | .ok a' =>
          match opt_dict as with
          | .error e => .error e
          | .ok as' => .ok ((k, a') :: as')
termination_by d => sizeOf d

/-- Pairwise optimization of switch arms. -/
def opt_pairs : List (Expr × Expr) → Res (List (Expr × Expr))
  | [] => .ok []
  | (m, b) :: rest =>
      match optimize_ops m with
      | .error e => .error e
      | .ok m' =>
          match optimize_ops b with
          | .error e => .error e
          | .ok b' =>
              match opt_pairs rest with
              | .error e => .error e
              | .ok rest' => .ok ((m', b') :: rest')
termination_by ps => sizeOf ps

/-- `extract_optimized_bin_args` (`src/data/eval.rs:69-75`) followed by the
specialized-node construction: optimizes the first two arguments (any
further ones are discarded by the iterator) and panics via `unwrap` when
fewer than two are present — after having optimized the first, as the
tuple expression does. -/
def opt_bin (ctor : Expr → Expr → Expr) : List Expr → Res Expr
  | a :: b :: _ =>
      match optimize_ops a with
      | .error e => .error e
      | .ok a' =>
          match optimize_ops b with
          | .error e => .error e
          | .ok b' => .ok (ctor a' b')
  | [a] =>
      match optimize_ops a with
      | .error e => .error e
      | .ok _ => .error (.panicked "unwrap on missing argument")
  | [] => .error (.panicked "unwrap on missing argument")
termination_by args => sizeOf args

/-- `extract_optimized_u_args` (`src/data/eval.rs:77-79`): optimizes the
first argument, panicking via `unwrap` on an empty list. -/
def opt_un (ctor : Expr → Expr) : List Expr → Res Expr
  | a :: _ =>
      match optimize_ops a with
      | .error e => .error e
      | .ok a' => .ok (ctor a')
  | [] => .error (.panicked "unwrap on missing argument")
termination_by args => sizeOf args

/-- The left-associative folding of `And`/`Or`/`Coalesce` argument lists
(`src/data/eval.rs:262-285`): the first argument seeds the accumulator and
each further argument wraps it in a fresh specialized node; the `unwrap`
on an empty list panics. -/
def opt_nary (ctor : Expr → Expr → Expr) : List Expr → Res Expr
  | [] => .error (.panicked "unwrap on missing argument")
  | a :: rest =>
      match optimize_ops a with
      | .error e => .error e
      | .ok a' => opt_fold ctor a' rest
termination_by args => sizeOf args

/-- The accumulator loop of the left-associative folding. -/
def opt_fold (ctor : Expr → Expr → Expr) : Expr → List Expr → Res Expr
  | acc, [] => .ok acc
  | acc, a :: rest =>
      match optimize_ops a with
      | .error e => .error e
      | .ok a' => opt_fold ctor (ctor acc a') rest
termination_by acc rest => sizeOf rest

end

mutual

/-- `Expr::row_eval` (`src/data/eval.rs:340-543`): executes an expression
against a row context.  The specialized binary nodes evaluate the first
operand and return `Null` at once when it is `Null` — without touching the
second operand — then do the same for the second, then call the typed fast
path; `And`/`Or`/`Coalesce` short-circuit per §4.5; `ApplyAgg` hits the
source's `todo!()`, modelled as a panic. -/
def row_eval (ctx : RowEvalContext) : Expr → Res Value
  | .Const v => .ok v
  | .List l =>
      match row_eval_list ctx l with
      | .ok vs => .ok (.List vs)
      | .error e => .error e
  | .Dict d =>
      match row_eval_dict ctx d with
      | .ok vs => .ok (.Dict vs)
      | .error e => .error e
  | .Variable v => .error (.err (.unresolvedVariable v))
  | .TableCol t c => .error (.err (.unresolveTableCol t c))
  | .TupleSetIdx i => liftE (ctx i)
  | .Apply op args => row_apply_go ctx op args []
  | .ApplyAgg _ _ _ => .error (.panicked "not yet implemented")
  | .FieldAcc f a =>
      match row_eval ctx a with
      | .error e => .error e
      | .ok .Null => .ok .Null
      | .ok (.Dict d) => .ok (dict_remove d f)
      | .ok v => .error (.err (.fieldAccess f v))
  | .IdxAcc i a =>
      match row_eval ctx a with
      | .error e => .error e
      | .ok .Null => .ok .Null
      | .ok (.List l) => .ok ((l[i]?).getD .Null)
      | .ok v => .error (.err (.indexAccess i v))
  | .IfExpr c t e =>
      match row_eval ctx c with
      | .error err => .error err
      | .ok (.Bool true) => row_eval ctx t
      | .ok (.Bool false) => row_eval ctx e
      | .ok .Null => row_eval ctx e
      | .ok v => .error (.err (.opTypeMismatch "if" [v]))
  | .SwitchExpr [] => .error (.panicked "switch expression without branches")
  | .SwitchExpr ((s, _) :: arms) =>
      match row_eval ctx s with
      | .error e => .error e
      | .ok sv => row_switch_arms ctx sv arms
  | .Add a b =>
      match row_eval ctx a with
      | .error e => .error e
      | .ok .Null => .ok .Null
      | .ok va =>
          match row_eval ctx b with
          | .error e => .error e
          | .ok .Null => .ok .Null
          | .ok vb => liftE (eval_two_non_null .add va vb)
  | .Sub a b =>
      match row_eval ctx a with
      | .error e => .error e
      | .ok .Null => .ok .Null
      | .ok va =>
          match row_eval ctx b with
          | .error e => .error e
          | .ok .Null => .ok .Null
          | .ok vb => liftE (eval_two_non_null .sub va vb)
  | .Mul a b =>
      match row_eval ctx a with
      | .error e => .error e
      | .ok .Null => .ok .Null
      | .ok va =>
          match row_eval ctx b with
          | .error e => .error e
          | .ok .Null => .ok .Null
          | .ok vb => liftE (eval_two_non_null .mul va vb)
  | .Div a b =>
      match row_eval ctx a with
      | .error e => .error e
      | .ok .Null => .ok .Null
      | .ok va =>
          match row_eval ctx b with
          | .error e => .error e
          | .ok .Null => .ok .Null
          | .ok vb => liftE (eval_two_non_null .div va vb)
  | .Pow a b =>
      match row_eval ctx a with
      | .error e => .error e
      | .ok .Null => .ok .Null
      | .ok va =>
          match row_eval ctx b with
          | .error e => .error e
          | .ok .Null => .ok .Null
          | .ok vb => liftE (eval_two_non_null .pow va vb)
  | .Mod a b =>
      match row_eval ctx a with
      | .error e => .error e
      | .ok .Null => .ok .Null
      | .ok va =>
          match row_eval ctx b with
          | .error e => .error e
          | .ok .Null => .ok .Null
          | .ok vb => liftE (eval_two_non_null .mod va vb)
  | .StrCat a b =>
      match row_eval ctx a with
      | .error e => .error e
      | .ok .Null => .ok .Null
      | .ok va =>
          match row_eval ctx b with
          | .error e => .error e
          | .ok .Null => .ok .Null
          | .ok vb => liftE (eval_two_non_null .strcat va vb)
  | .Eq a b =>
      match row_eval ctx a with
      | .error e => .error e
      | .ok .Null => .ok .Null
      | .ok va =>
          match row_eval ctx b with
          | .error e => .error e
          | .ok .Null => .ok .Null
          | .ok vb => liftE (eval_two_non_null .eq va vb)
  | .Ne a b =>
      match row_eval ctx a with
      | .error e => .error e
      | .ok .Null => .ok .Null
      | .ok va =>
          match row_eval ctx b with
          | .error e => .error e
          | .ok .Null => .ok .Null
          | .ok vb => liftE (eval_two_non_null .ne va vb)
  | .Gt a b =>
      match row_eval ctx a with
      | .error e => .error e
      | .ok .Null => .ok .Null
      | .ok va =>
          match row_eval ctx b with
          | .error e => .error e
          | .ok .Null => .ok .Null
          | .ok vb => liftE (eval_two_non_null .gt va vb)
  | .Ge a b =>
      match row_eval ctx a with
      | .error e => .error e
      | .ok .Null => .ok .Null
      | .ok va =>
          match row_eval ctx b with
          | .error e => .error e
          | .ok .Null => .ok .Null
          | .ok vb => liftE (eval_two_non_null .ge va vb)
  | .Lt a b =>
      match row_eval ctx a with
      | .error e => .error e
      | .ok .Null => .ok .Null
      | .ok va =>
          match row_eval ctx b with
          | .error e => .error e
          | .ok .Null => .ok .Null
          | .ok vb => liftE (eval_two_non_null .lt va vb)
  | .Le a b =>
      match row_eval ctx a with
      | .error e => .error e
      | .ok .Null => .ok .Null
      | .ok va =>
          match row_eval ctx b with
          | .error e => .error e
          | .ok .Null => .ok .Null
          | .ok vb => liftE (eval_two_non_null .le va vb)
  | .Not a =>
      match row_eval ctx a with
      | .error e => .error e
      | .ok .Null => .ok .Null
      | .ok va => liftE (eval_one_non_null .opNot va)
  | .Minus a =>
      match row_eval ctx a with
      | .error e => .error e
      | .ok .Null => .ok .Null
      | .ok va => liftE (eval_one_non_null .minus va)
  | .IsNull a =>
      match row_eval ctx a with
      | .error e => .error e
      | .ok v => liftE (eval_one .isNull v)
  | .NotNull a =>
      match row_eval ctx a with
      | .error e => .error e
      | .ok v => liftE (eval_one .notNull v)
  | .Coalesce a b =>
      match row_eval ctx a with
      | .error e => .error e
      | .ok va =>
          if sc_decided .coalesce va then .ok va
          else if sc_continue .coalesce va then
            match row_eval ctx b with
            | .error e => .error e
            | .ok vb => liftE (sc_step .coalesce va vb)
          else .error (.err (.opTypeMismatch (op_name .coalesce) [va]))
  | .Or a b =>
      match row_eval ctx a with
      | .error e => .error e
      | .ok va =>
          if sc_decided .opOr va then .ok va
          else if sc_continue .opOr va then
            match row_eval ctx b with
            | .error e => .error e
            | .ok vb => liftE (sc_step .opOr va vb)
          else .error (.err (.opTypeMismatch (op_name .opOr) [va]))
  | .And a b =>
      match row_eval ctx a with
      | .error e => .error e
      | .ok va =>
          if sc_decided .opAnd va then .ok va
          else if sc_continue .opAnd va then
            match row_eval ctx b with
            | .error e => .error e
            | .ok vb => liftE (sc_step .opAnd va vb)
          else .error (.err (.opTypeMismatch (op_name .opAnd) [va]))
termination_by e => sizeOf e

/-- Elementwise row evaluation of `Expr::List` members. -/
def row_eval_list (ctx : RowEvalContext) : List Expr → Res (List Value)
  | [] => .ok []
  | a :: as =>
      match row_eval ctx a with
      | .error e => .error e
      | .ok v =>
          match row_eval_list ctx as with
          | .error e => .error e
          | .ok vs => .ok (v :: vs)
termination_by l => sizeOf l

/-- Entrywise row evaluation of `Expr::Dict` members. -/
def row_eval_dict (ctx : RowEvalContext) :
    List (String × Expr) → Res (List (String × Value))
  | [] => .ok []
  | (k, a) :: as =>
      match row_eval ctx a with
      | .error e => .error e
      | .ok v =>
          match row_eval_dict ctx as with
          | .error e => .error e
          | .ok vs => .ok ((k, v) :: vs)
termination_by d => sizeOf d

/-- The generic-`Apply` loop of `row_eval` (`src/data/eval.rs:359-371`):
arguments are evaluated in order; under `non_null_args` a `Null` argument
returns `Null` at once; otherwise `op.eval` is called on the collected
values. -/
def row_apply_go (ctx : RowEvalContext) (op : Op) :
    List Expr → List Value → Res Value
  | [], acc => liftE (op_eval op acc)
  | a :: rest, acc =>
      match row_eval ctx a with
      | .error e => .error e
      | .ok v =>
          if non_null_args op && is_vnull v then .ok .Null
          else row_apply_go ctx op rest (acc ++ [v])
termination_by args acc => sizeOf args

/-- Modelled from the spec: the arm walk of `row_eval_switch_expr`
(`data/op.rs` is not among the provided sources): matches are evaluated in
order against the scrutinee value, the first equal one selects its branch,
the final pair is the default. -/
def row_switch_arms (ctx : RowEvalContext) (sv : Value) :
    List (Expr × Expr) → Res Value
  | [] => .ok .Null
  | [(_, dflt)] => row_eval ctx dflt
  | (m, b) :: rest =>
      match row_eval ctx m with
      | .error e => .error e
      | .ok mv =>
          if mv = sv then row_eval ctx b
          else row_switch_arms ctx sv rest
termination_by arms => sizeOf arms

end

/-- `Expr::interpret_eval` (`src/data/eval.rs:82-87`): partial evaluation
followed by the demand that the result be a constant (the source formats
the residual into the error text; the model uses a fixed description). -/
def interpret_eval (ctx : ExprEvalContext) (fuel : Nat) (e : Expr) : Res Value :=
  match partial_eval ctx fuel e with
  | .ok (.Const v) => .ok v
  | .ok _ => .error (.err (.incompleteEvaluation "residual expression"))
  | .error e => .error e

/-- Minimal argument count the optimizer draws from a specialized
operator's argument list: the fixed arity for fixed-arity operators, one
seed argument for the variadic short-circuit operators. -/
def op_min_args (op : Op) : Nat :=
  match op_arity op with
  | some n => n
  | none => 1

/-- Does the argument count match the operator exactly: the fixed arity
for fixed-arity operators, at least one argument for the variadic ones? -/
def args_exact_at (op : Op) (n : Nat) : Bool :=
  arity_ok op n && decide (op_min_args op ≤ n)

/-- Is the expression one of the specialized nodes that only the optimizer
produces? -/
def is_spec_node : Expr → Bool
  | .Add _ _ | .Sub _ _ | .Mul _ _ | .Div _ _ | .Pow _ _ | .Mod _ _
  | .StrCat _ _ | .Eq _ _ | .Ne _ _ | .Gt _ _ | .Ge _ _ | .Lt _ _
  | .Le _ _ | .Not _ | .Minus _ | .IsNull _ | .NotNull _
  | .Coalesce _ _ | .Or _ _ | .And _ _ => true
  | _ => false

/-- Is the string the canonical name of a specialized operator? -/
def is_spec_name (s : String) : Bool :=
  ["+", "-", "*", "/", "**", "%", "++", "==", "!=", ">", ">=", "<", "<=",
   "!", "--", "is_null", "not_null", "~", "||", "&&"].contains s

mutual

/-- Every `Apply` node the optimizer will visit carries at least
`op_min_args` arguments (the optimizer does not descend into pre-existing
specialized nodes, so their children are unconstrained). -/
def args_sufficient : Expr → Bool
  | .List l => args_sufficient_list l
  | .Dict d => args_sufficient_dict d
  | .Apply op args =>
      decide (op_min_args op ≤ args.length) && args_sufficient_list args
  | .ApplyAgg _ aArgs args =>
      args_sufficient_list aArgs && args_sufficient_list args
  | .FieldAcc _ a => args_sufficient a
  | .IdxAcc _ a => args_sufficient a
  | .IfExpr c t e => args_sufficient c && args_sufficient t && args_sufficient e
  | .SwitchExpr ps => args_sufficient_pairs ps
  | _ => true

/-- `args_sufficient` over expression lists. -/
def args_sufficient_list : List Expr → Bool
  | [] => true
  | a :: as => args_sufficient a && args_sufficient_list as

/-- `args_sufficient` over dictionary entries. -/
def args_sufficient_dict : List (String × Expr) → Bool
  | [] => true
  | (_, a) :: as => args_sufficient a && args_sufficient_dict as

/-- `args_sufficient` over switch arms. -/
def args_sufficient_pairs : List (Expr × Expr) → Bool
  | [] => true
  | (m, b) :: rest => args_sufficient m && args_sufficient b && args_sufficient_pairs rest

end

mutual

/-- Every `Apply` node the optimizer will visit matches its operator's
arity exactly (fixed arity for fixed-arity operators, at least one
argument for the variadic short-circuit ones). -/
def args_exact : Expr → Bool
  | .List l => args_exact_list l
  | .Dict d => args_exact_dict d
  | .Apply op args => args_exact_at op args.length && args_exact_list args
  | .ApplyAgg _ aArgs args => args_exact_list aArgs && args_exact_list args
  | .FieldAcc _ a => args_exact a
  | .IdxAcc _ a => args_exact a
  | .IfExpr c t e => args_exact c && args_exact t && args_exact e
  | .SwitchExpr ps => args_exact_pairs ps
  | _ => true

/-- `args_exact` over expression lists. -/
def args_exact_list : List Expr → Bool
  | [] => true
  | a :: as => args_exact a && args_exact_list as

/-- `args_exact` over dictionary entries. -/
def args_exact_dict : List (String × Expr) → Bool
  | [] => true
  | (_, a) :: as => args_exact a && args_exact_dict as

/-- `args_exact` over switch arms. -/
def args_exact_pairs : List (Expr × Expr) → Bool
  | [] => true
  | (m, b) :: rest => args_exact m && args_exact b && args_exact_pairs rest

end

mutual

/-- The tree contains no specialized node anywhere (parser output and
post-partial-eval trees have this shape). -/
def no_spec_node : Expr → Bool
  | .Const _ | .Variable _ | .TableCol _ _ | .TupleSetIdx _ => true
  | .List l => no_spec_node_list l
  | .Dict d => no_spec_node_dict d
  | .Apply _ args => no_spec_node_list args
  | .ApplyAgg _ aArgs args => no_spec_node_list aArgs && no_spec_node_list args
  | .FieldAcc _ a => no_spec_node a
  | .IdxAcc _ a => no_spec_node a
  | .IfExpr c t e => no_spec_node c && no_spec_node t && no_spec_node e
  | .SwitchExpr ps => no_spec_node_pairs ps
  | _ => false

/-- `no_spec_node` over expression lists. -/
def no_spec_node_list : List Expr → Bool
  | [] => true
  | a :: as => no_spec_node a && no_spec_node_list as

/-- `no_spec_node` over dictionary entries. -/
def no_spec_node_dict : List (String × Expr) → Bool
  | [] => true
  | (_, a) :: as => no_spec_node a && no_spec_node_dict as

/-- `no_spec_node` over switch arms. -/
def no_spec_node_pairs : List (Expr × Expr) → Bool
  | [] => true
  | (m, b) :: rest => no_spec_node m && no_spec_node b && no_spec_node_pairs rest

end

mutual

/-- Does the tree contain an `Apply` node whose operator name matches a
specialized node? -/
def has_spec_apply : Expr → Bool
  | .Const _ | .Variable _ | .TableCol _ _ | .TupleSetIdx _ => false
  | .List l => has_spec_apply_list l
  | .Dict d => has_spec_apply_dict d
  | .Apply op args => is_spec_name (op_name op) || has_spec_apply_list args
  | .ApplyAgg _ aArgs args => has_spec_apply_list aArgs || has_spec_apply_list args
  | .FieldAcc _ a => has_spec_apply a
  | .IdxAcc _ a => has_spec_apply a
  | .IfExpr c t e => has_spec_apply c || has_spec_apply t || has_spec_apply e
  | .SwitchExpr ps => has_spec_apply_pairs ps
  | .Add a b | .Sub a b | .Mul a b | .Div a b | .Pow a b | .Mod a b
  | .StrCat a b | .Eq a b | .Ne a b | .Gt a b | .Ge a b | .Lt a b
  | .Le a b | .Coalesce a b | .Or a b | .And a b =>
      has_spec_apply a || has_spec_apply b
  | .Not a | .Minus a | .IsNull a | .NotNull a => has_spec_apply a

/-- `has_spec_apply` over expression lists. -/
def has_spec_apply_list : List Expr → Bool
  | [] => false
  | a :: as => has_spec_apply a || has_spec_apply_list as

/-- `has_spec_apply` over dictionary entries. -/
def has_spec_apply_dict : List (String × Expr) → Bool
  | [] => false
  | (_, a) :: as => has_spec_apply a || has_spec_apply_dict as

/-- `has_spec_apply` over switch arms. -/
def has_spec_apply_pairs : List (Expr × Expr) → Bool
  | [] => false
  | (m, b) :: rest => has_spec_apply m || has_spec_apply b || has_spec_apply_pairs rest

end

mutual

/-- The closed first-order fragment of claim C6: only `Const`, `Apply`,
`FieldAcc` and `IdxAcc` nodes, with every `Apply` matching its operator's
arity exactly. -/
def foldable : Expr → Bool
  | .Const _ => true
  | .Apply op args => args_exact_at op args.length && foldable_list args
  | .FieldAcc _ a => foldable a
  | .IdxAcc _ a => foldable a
  | _ => false

/-- `foldable` over argument lists. -/
def foldable_list : List Expr → Bool
  | [] => true
  | a :: as => foldable a && foldable_list as

end

/-- A ctor distributes `has_spec_apply` over its two children. -/
def BinCtorSpec (ctor : Expr → Expr → Expr) : Prop :=
  ∀ x y, has_spec_apply (ctor x y) = (has_spec_apply x || has_spec_apply y)

/-- A ctor distributes `has_spec_apply` over its child. -/
def UnCtorSpec (ctor : Expr → Expr) : Prop :=
  ∀ x, has_spec_apply (ctor x) = has_spec_apply x

mutual

theorem opt_total : ∀ e, args_sufficient e = true →
    ∃ e', optimize_ops e = .ok e' ∧
      (no_spec_node e = true → has_spec_apply e' = false)
  | .Const v, _ => ⟨.Const v, by simp [optimize_ops], by simp [has_spec_apply]⟩
  | .Variable x, _ => ⟨.Variable x, by simp [optimize_ops], by simp [has_spec_apply]⟩
  | .TableCol t c, _ => ⟨.TableCol t c, by simp [optimize_ops], by simp [has_spec_apply]⟩
  | .TupleSetIdx i, _ => ⟨.TupleSetIdx i, by simp [optimize_ops], by simp [has_spec_apply]⟩
  | .List l, h => by
      simp only [args_sufficient] at h
      obtain ⟨l', hl, hs⟩ := opt_total_list l h
      exact ⟨.List l', by simp [optimize_ops, hl],
        by intro hn; simp only [no_spec_node] at hn; simp [has_spec_apply, hs hn]⟩
  | .Dict d, h => by
      simp only [args_sufficient] at h
      obtain ⟨d', hd, hs⟩ := opt_total_dict d h
      exact ⟨.Dict d', by simp [optimize_ops, hd],
        by intro hn; simp only [no_spec_node] at hn; simp [has_spec_apply, hs hn]⟩
  | .Apply op args, h => by
      simp only [args_sufficient, Bool.and_eq_true, decide_eq_true_eq] at h
      obtain ⟨hlen, hargs⟩ := h
      have hns : no_spec_node (.Apply op args) = no_spec_node_list args := by
        simp [no_spec_node]
      cases op
      case add =>
        obtain ⟨r, hr, hs⟩ := opt_bin_total .Add
          (by intro x y; simp [has_spec_apply]) args (by simpa [op_min_args, op_arity] using hlen) hargs
        exact ⟨r, by simpa [optimize_ops] using hr, by rw [hns]; exact hs⟩
      case sub =>
        obtain ⟨r, hr, hs⟩ := opt_bin_total .Sub
          (by intro x y; simp [has_spec_apply]) args (by simpa [op_min_args, op_arity] using hlen) hargs
        exact ⟨r, by simpa [optimize_ops] using hr, by rw [hns]; exact hs⟩
      case mul =>
        obtain ⟨r, hr, hs⟩ := opt_bin_total .Mul
          (by intro x y; simp [has_spec_apply]) args (by simpa [op_min_args, op_arity] using hlen) hargs
        exact ⟨r, by simpa [optimize_ops] using hr, by rw [hns]; exact hs⟩
      case div =>
        obtain ⟨r, hr, hs⟩ := opt_bin_total .Div
          (by intro x y; simp [has_spec_apply]) args (by simpa [op_min_args, op_arity] using hlen) hargs
        exact ⟨r, by simpa [optimize_ops] using hr, by rw [hns]; exact hs⟩
      case pow =>
        obtain ⟨r, hr, hs⟩ := opt_bin_total .Pow
          (by intro x y; simp [has_spec_apply]) args (by simpa [op_min_args, op_arity] using hlen) hargs
        exact ⟨r, by simpa [optimize_ops] using hr, by rw [hns]; exact hs⟩
      case mod =>
        obtain ⟨r, hr, hs⟩ := opt_bin_total .Mod
          (by intro x y; simp [has_spec_apply]) args (by simpa [op_min_args, op_arity] using hlen) hargs
        exact ⟨r, by simpa [optimize_ops] using hr, by rw [hns]; exact hs⟩
      case strcat =>
        obtain ⟨r, hr, hs⟩ := opt_bin_total .StrCat
          (by intro x y; simp [has_spec_apply]) args (by simpa [op_min_args, op_arity] using hlen) hargs
        exact ⟨r, by simpa [optimize_ops] using hr, by rw [hns]; exact hs⟩
      case eq =>
        obtain ⟨r, hr, hs⟩ := opt_bin_total .Eq
          (by intro x y; simp [has_spec_apply]) args (by simpa [op_min_args, op_arity] using hlen) hargs
        exact ⟨r, by simpa [optimize_ops] using hr, by rw [hns]; exact hs⟩
      case ne =>
        obtain ⟨r, hr, hs⟩ := opt_bin_total .Ne
          (by intro x y; simp [has_spec_apply]) args (by simpa [op_min_args, op_arity] using hlen) hargs
        exact ⟨r, by simpa [optimize_ops] using hr, by rw [hns]; exact hs⟩
      case gt =>
        obtain ⟨r, hr, hs⟩ := opt_bin_total .Gt
          (by intro x y; simp [has_spec_apply]) args (by simpa [op_min_args, op_arity] using hlen) hargs
        exact ⟨r, by simpa [optimize_ops] using hr, by rw [hns]; exact hs⟩
      case ge =>
        obtain ⟨r, hr, hs⟩ := opt_bin_total .Ge
          (by intro x y; simp [has_spec_apply]) args (by simpa [op_min_args, op_arity] using hlen) hargs
        exact ⟨r, by simpa [optimize_ops] using hr, by rw [hns]; exact hs⟩
      case lt =>
        obtain ⟨r, hr, hs⟩ := opt_bin_total .Lt
          (by intro x y; simp [has_spec_apply]) args (by simpa [op_min_args, op_arity] using hlen) hargs
        exact ⟨r, by simpa [optimize_ops] using hr, by rw [hns]; exact hs⟩
      case le =>
        obtain ⟨r, hr, hs⟩ := opt_bin_total .Le
          (by intro x y; simp [has_spec_apply]) args (by simpa [op_min_args, op_arity] using hlen) hargs
        exact ⟨r, by simpa [optimize_ops] using hr, by rw [hns]; exact hs⟩
      case opNot =>
        obtain ⟨r, hr, hs⟩ := opt_un_total .Not
          (by intro x; simp [has_spec_apply]) args (by simpa [op_min_args, op_arity] using hlen) hargs
        exact ⟨r, by simpa [optimize_ops] using hr, by rw [hns]; exact hs⟩
      case minus =>
        obtain ⟨r, hr, hs⟩ := opt_un_total .Minus
          (by intro x; simp [has_spec_apply]) args (by simpa [op_min_args, op_arity] using hlen) hargs
        exact ⟨r, by simpa [optimize_ops] using hr, by rw [hns]; exact hs⟩
      case isNull =>
        obtain ⟨r, hr, hs⟩ := opt_un_total .IsNull
          (by intro x; simp [has_spec_apply]) args (by simpa [op_min_args, op_arity] using hlen) hargs
        exact ⟨r, by simpa [optimize_ops] using hr, by rw [hns]; exact hs⟩
      case notNull =>
        obtain ⟨r, hr, hs⟩ := opt_un_total .NotNull
          (by intro x; simp [has_spec_apply]) args (by simpa [op_min_args, op_arity] using hlen) hargs
        exact ⟨r, by simpa [optimize_ops] using hr, by rw [hns]; exact hs⟩
      case coalesce =>
        obtain ⟨r, hr, hs⟩ := opt_nary_total .Coalesce
          (by intro x y; simp [has_spec_apply]) args (by simpa [op_min_args, op_arity] using hlen) hargs
        exact ⟨r, by simpa [optimize_ops] using hr, by rw [hns]; exact hs⟩
      case opOr =>
        obtain ⟨r, hr, hs⟩ := opt_nary_total .Or
          (by intro x y; simp [has_spec_apply]) args (by simpa [op_min_args, op_arity] using hlen) hargs
        exact ⟨r, by simpa [optimize_ops] using hr, by rw [hns]; exact hs⟩
      case opAnd =>
        obtain ⟨r, hr, hs⟩ := opt_nary_total .And
          (by intro x y; simp [has_spec_apply]) args (by simpa [op_min_args, op_arity] using hlen) hargs
        exact ⟨r, by simpa [optimize_ops] using hr, by rw [hns]; exact hs⟩
  | .ApplyAgg op aArgs args, h => by
      simp only [args_sufficient, Bool.and_eq_true] at h
      obtain ⟨a', ha, hsa⟩ := opt_total_list aArgs h.1
      obtain ⟨b', hb, hsb⟩ := opt_total_list args h.2
      exact ⟨.ApplyAgg op a' b', by simp [optimize_ops, ha, hb],
        by intro hn; simp only [no_spec_node, Bool.and_eq_true] at hn
           simp [has_spec_apply, hsa hn.1, hsb hn.2]⟩
  | .FieldAcc f a, h => by
      simp only [args_sufficient] at h
      obtain ⟨a', ha, hs⟩ := opt_total a h
      exact ⟨.FieldAcc f a', by simp [optimize_ops, ha],
        by intro hn; simp only [no_spec_node] at hn; simp [has_spec_apply, hs hn]⟩
  | .IdxAcc i a, h => by
      simp only [args_sufficient] at h
      obtain ⟨a', ha, hs⟩ := opt_total a h
      exact ⟨.IdxAcc i a', by simp [optimize_ops, ha],
        by intro hn; simp only [no_spec_node] at hn; simp [has_spec_apply, hs hn]⟩
  | .IfExpr c t e, h => by
      simp only [args_sufficient, Bool.and_eq_true] at h
      obtain ⟨c', hc, hsc⟩ := opt_total c h.1.1
      obtain ⟨t', ht, hst⟩ := opt_total t h.1.2
      obtain ⟨e', he, hse⟩ := opt_total e h.2
      exact ⟨.IfExpr c' t' e', by simp [optimize_ops, hc, ht, he],
        by intro hn; simp only [no_spec_node, Bool.and_eq_true] at hn
           simp [has_spec_apply, hsc hn.1.1, hst hn.1.2, hse hn.2]⟩
  | .SwitchExpr ps, h => by
      simp only [args_sufficient] at h
      obtain ⟨ps', hp, hs⟩ := opt_total_pairs ps h
      exact ⟨.SwitchExpr ps', by simp [optimize_ops, hp],
        by intro hn; simp only [no_spec_node] at hn; simp [has_spec_apply, hs hn]⟩
  | .Add a b, _ => ⟨.Add a b, by simp [optimize_ops], by simp [no_spec_node]⟩
  | .Sub a b, _ => ⟨.Sub a b, by simp [optimize_ops], by simp [no_spec_node]⟩
  | .Mul a b, _ => ⟨.Mul a b, by simp [optimize_ops], by simp [no_spec_node]⟩
  | .Div a b, _ => ⟨.Div a b, by simp [optimize_ops], by simp [no_spec_node]⟩
  | .Pow a b, _ => ⟨.Pow a b, by simp [optimize_ops], by simp [no_spec_node]⟩
  | .Mod a b, _ => ⟨.Mod a b, by simp [optimize_ops], by simp [no_spec_node]⟩
  | .StrCat a b, _ => ⟨.StrCat a b, by simp [optimize_ops], by simp [no_spec_node]⟩
  | .Eq a b, _ => ⟨.Eq a b, by simp [optimize_ops], by simp [no_spec_node]⟩
  | .Ne a b, _ => ⟨.Ne a b, by simp [optimize_ops], by simp [no_spec_node]⟩
  | .Gt a b, _ => ⟨.Gt a b, by simp [optimize_ops], by simp [no_spec_node]⟩
  | .Ge a b, _ => ⟨.Ge a b, by simp [optimize_ops], by simp [no_spec_node]⟩
  | .Lt a b, _ => ⟨.Lt a b, by simp [optimize_ops], by simp [no_spec_node]⟩
  | .Le a b, _ => ⟨.Le a b, by simp [optimize_ops], by simp [no_spec_node]⟩
  | .Not a, _ => ⟨.Not a, by simp [optimize_ops], by simp [no_spec_node]⟩
  | .Minus a, _ => ⟨.Minus a, by simp [optimize_ops], by simp [no_spec_node]⟩
  | .IsNull a, _ => ⟨.IsNull a, by simp [optimize_ops], by simp [no_spec_node]⟩
  | .NotNull a, _ => ⟨.NotNull a, by simp [optimize_ops], by simp [no_spec_node]⟩
  | .Coalesce a b, _ => ⟨.Coalesce a b, by simp [optimize_ops], by simp [no_spec_node]⟩
  | .Or a b, _ => ⟨.Or a b, by simp [optimize_ops], by simp [no_spec_node]⟩
  | .And a b, _ => ⟨.And a b, by simp [optimize_ops], by simp [no_spec_node]⟩

theorem opt_total_list : ∀ l, args_sufficient_list l = true →
    ∃ l', opt_list l = .ok l' ∧
      (no_spec_node_list l = true → has_spec_apply_list l' = false)
  | [], _ => ⟨[], by simp [opt_list], by simp [has_spec_apply_list]⟩
  | a :: as, h => by
      simp only [args_sufficient_list, Bool.and_eq_true] at h
      obtain ⟨a', ha, hsa⟩ := opt_total a h.1
      obtain ⟨as', has, hsas⟩ := opt_total_list as h.2
      exact ⟨a' :: as', by simp [opt_list, ha, has],
        by intro hn; simp only [no_spec_node_list, Bool.and_eq_true] at hn
           simp [has_spec_apply_list, hsa hn.1, hsas hn.2]⟩

theorem opt_total_dict : ∀ d, args_sufficient_dict d = true →
    ∃ d', opt_dict d = .ok d' ∧
      (no_spec_node_dict d = true → has_spec_apply_dict d' = false)
  | [], _ => ⟨[], by simp [opt_dict], by simp [has_spec_apply_dict]⟩
  | (k, a) :: as, h => by
      simp only [args_sufficient_dict, Bool.and_eq_true] at h
      obtain ⟨a', ha, hsa⟩ := opt_total a h.1
      obtain ⟨as', has, hsas⟩ := opt_total_dict as h.2
      exact ⟨(k, a') :: as', by simp [opt_dict, ha, has],
        by intro hn; simp only [no_spec_node_dict, Bool.and_eq_true] at hn
           simp [has_spec_apply_dict, hsa hn.1, hsas hn.2]⟩

theorem opt_total_pairs : ∀ ps, args_sufficient_pairs ps = true →
    ∃ ps', opt_pairs ps = .ok ps' ∧
      (no_spec_node_pairs ps = true → has_spec_apply_pairs ps' = false)
  | [], _ => ⟨[], by simp [opt_pairs], by simp [has_spec_apply_pairs]⟩
  | (m, b) :: rest, h => by
      simp only [args_sufficient_pairs, Bool.and_eq_true] at h
      obtain ⟨m', hm, hsm⟩ := opt_total m h.1.1
      obtain ⟨b', hb, hsb⟩ := opt_total b h.1.2
      obtain ⟨rest', hrest, hsrest⟩ := opt_total_pairs rest h.2
      exact ⟨(m', b') :: rest', by simp [opt_pairs, hm, hb, hrest],
        by intro hn; simp only [no_spec_node_pairs, Bool.and_eq_true] at hn
           simp [has_spec_apply_pairs, hsm hn.1.1, hsb hn.1.2, hsrest hn.2]⟩

theorem opt_bin_total : ∀ (ctor : Expr → Expr → Expr), BinCtorSpec ctor →
    ∀ args, 2 ≤ args.length → args_sufficient_list args = true →
    ∃ r, opt_bin ctor args = .ok r ∧
      (no_spec_node_list args = true → has_spec_apply r = false)
  | ctor, hc, a :: b :: rest, _, h => by
      simp only [args_sufficient_list, Bool.and_eq_true] at h
      obtain ⟨a', ha, hsa⟩ := opt_total a h.1
      obtain ⟨b', hb, hsb⟩ := opt_total b h.2.1
      refine ⟨ctor a' b', by simp [opt_bin, ha, hb], ?_⟩
      intro hn
      simp only [no_spec_node_list, Bool.and_eq_true] at hn
      rw [hc a' b', hsa hn.1, hsb hn.2.1]; rfl
  | _, _, [], hlen, _ => absurd hlen (by simp)
  | _, _, [_], hlen, _ => absurd hlen (by simp)

theorem opt_un_total : ∀ (ctor : Expr → Expr), UnCtorSpec ctor →
    ∀ args, 1 ≤ args.length → args_sufficient_list args = true →
    ∃ r, opt_un ctor args = .ok r ∧
      (no_spec_node_list args = true → has_spec_apply r = false)
  | ctor, hc, a :: rest, _, h => by
      simp only [args_sufficient_list, Bool.and_eq_true] at h
      obtain ⟨a', ha, hsa⟩ := opt_total a h.1
      refine ⟨ctor a', by simp [opt_un, ha], ?_⟩
      intro hn
      simp only [no_spec_node_list, Bool.and_eq_true] at hn
      rw [hc a', hsa hn.1]
  | _, _, [], hlen, _ => absurd hlen (by simp)

theorem opt_nary_total : ∀ (ctor : Expr → Expr → Expr), BinCtorSpec ctor →
    ∀ args, 1 ≤ args.length → args_sufficient_list args = true →
    ∃ r, opt_nary ctor args = .ok r ∧
      (no_spec_node_list args = true → has_spec_apply r = false)
  | ctor, hc, a :: rest, _, h => by
      simp only [args_sufficient_list, Bool.and_eq_true] at h
      obtain ⟨a', ha, hsa⟩ := opt_total a h.1
      obtain ⟨r, hr, hs⟩ := opt_fold_total ctor hc a' rest h.2
      refine ⟨r, by simp [opt_nary, ha, hr], ?_⟩
      intro hn
      simp only [no_spec_node_list, Bool.and_eq_true] at hn
      exact hs (hsa hn.1) hn.2
  | _, _, [], hlen, _ => absurd hlen (by simp)

theorem opt_fold_total : ∀ (ctor : Expr → Expr → Expr), BinCtorSpec ctor →
    ∀ acc args, args_sufficient_list args = true →
    ∃ r, opt_fold ctor acc args = .ok r ∧
      (has_spec_apply acc = false → no_spec_node_list args = true →
        has_spec_apply r = false)
  | ctor, _, acc, [], _ => by
      refine ⟨acc, ?_, fun h _ => h⟩
      simp [opt_fold]
  | ctor, hc, acc, a :: rest, h => by
      simp only [args_sufficient_list, Bool.and_eq_true] at h
      obtain ⟨a', ha, hsa⟩ := opt_total a h.1
      obtain ⟨r, hr, hs⟩ := opt_fold_total ctor hc (ctor acc a') rest h.2
      refine ⟨r, ?_, ?_⟩
      · simp [opt_fold, ha, hr]
      · intro hacc hn
        simp only [no_spec_node_list, Bool.and_eq_true] at hn
        refine hs ?_ hn.2
        rw [hc acc a', hacc, hsa hn.1]; rfl

end

/-- The specialized node built by `opt_bin` is passed through unchanged by
a second optimization pass. -/
theorem opt_bin_idem (ctor : Expr → Expr → Expr)
    (hP : ∀ x y, optimize_ops (ctor x y) = .ok (ctor x y)) :
    ∀ args r, opt_bin ctor args = .ok r → optimize_ops r = .ok r := by
  intro args r h
  match args with
  | [] => simp [opt_bin] at h
  | [a] =>
      simp only [opt_bin] at h
      cases hA : optimize_ops a <;> simp [hA] at h
  | a :: b :: rest =>
      simp only [opt_bin] at h
      cases hA : optimize_ops a <;> simp [hA] at h
      cases hB : optimize_ops b <;> simp [hB] at h
      rw [← h]
      exact hP _ _

/-- The specialized node built by `opt_un` is passed through unchanged by
a second optimization pass. -/
theorem opt_un_idem (ctor : Expr → Expr)
    (hP : ∀ x, optimize_ops (ctor x) = .ok (ctor x)) :
    ∀ args r, opt_un ctor args = .ok r → optimize_ops r = .ok r := by
  intro args r h
  match args with
  | [] => simp [opt_un] at h
  | a :: rest =>
      simp only [opt_un] at h
      cases hA : optimize_ops a <;> simp [hA] at h
      rw [← h]
      exact hP _

/-- The left-associative fold built by `opt_fold` is passed through
unchanged by a second optimization pass, provided its seed is. -/
theorem opt_fold_idem (ctor : Expr → Expr → Expr)
    (hP : ∀ x y, optimize_ops (ctor x y) = .ok (ctor x y)) :
    ∀ args acc r, optimize_ops acc = .ok acc →
      opt_fold ctor acc args = .ok r → optimize_ops r = .ok r := by
  intro args
  induction args with
  | nil =>
      intro acc r hacc h
      simp only [opt_fold] at h
      cases h
      exact hacc
  | cons a rest ih =>
      intro acc r hacc h
      simp only [opt_fold] at h
      cases hA : optimize_ops a <;> simp [hA] at h
      exact ih (ctor acc _) r (hP _ _) h

mutual

theorem opt_idem : ∀ e e', optimize_ops e = .ok e' → optimize_ops e' = .ok e'
  | .Const v, e', h => by
      simp only [optimize_ops] at h
      cases h
      simp [optimize_ops]
  | .Variable x, e', h => by
      simp only [optimize_ops] at h
      cases h
      simp [optimize_ops]
  | .TableCol t c, e', h => by
      simp only [optimize_ops] at h
      cases h
      simp [optimize_ops]
  | .TupleSetIdx i, e', h => by
      simp only [optimize_ops] at h
      cases h
      simp [optimize_ops]
  | .List l, e', h => by
      simp only [optimize_ops] at h
      cases hL : opt_list l <;> simp [hL] at h
      rw [← h]
      simp [optimize_ops, opt_idem_list l _ hL]
  | .Dict d, e', h => by
      simp only [optimize_ops] at h
      cases hD : opt_dict d <;> simp [hD] at h
      rw [← h]
      simp [optimize_ops, opt_idem_dict d _ hD]
  | .Apply op args, e', h => by
      cases op
      case add =>
        exact opt_bin_idem .Add (fun x y => by simp [optimize_ops]) args e'
          (by simpa [optimize_ops] using h)
      case sub =>
        exact opt_bin_idem .Sub (fun x y => by simp [optimize_ops]) args e'
          (by simpa [optimize_ops] using h)
      case mul =>
        exact opt_bin_idem .Mul (fun x y => by simp [optimize_ops]) args e'
          (by simpa [optimize_ops] using h)
      case div =>
        exact opt_bin_idem .Div (fun x y => by simp [optimize_ops]) args e'
          (by simpa [optimize_ops] using h)
      case pow =>
        exact opt_bin_idem .Pow (fun x y => by simp [optimize_ops]) args e'
          (by simpa [optimize_ops] using h)
      case mod =>
        exact opt_bin_idem .Mod (fun x y => by simp [optimize_ops]) args e'
          (by simpa [optimize_ops] using h)
      case strcat =>
        exact opt_bin_idem .StrCat (fun x y => by simp [optimize_ops]) args e'
          (by simpa [optimize_ops] using h)
      case eq =>
        exact opt_bin_idem .Eq (fun x y => by simp [optimize_ops]) args e'
          (by simpa [optimize_ops] using h)
      case ne =>
        exact opt_bin_idem .Ne (fun x y => by simp [optimize_ops]) args e'
          (by simpa [optimize_ops] using h)
      case gt =>
        exact opt_bin_idem .Gt (fun x y => by simp [optimize_ops]) args e'
          (by simpa [optimize_ops] using h)
      case ge =>
        exact opt_bin_idem .Ge (fun x y => by simp [optimize_ops]) args e'
          (by simpa [optimize_ops] using h)
      case lt =>
        exact opt_bin_idem .Lt (fun x y => by simp [optimize_ops]) args e'
          (by simpa [optimize_ops] using h)
      case le =>
        exact opt_bin_idem .Le (fun x y => by simp [optimize_ops]) args e'
          (by simpa [optimize_ops] using h)
      case opNot =>
        exact opt_un_idem .Not (fun x => by simp [optimize_ops]) args e'
          (by simpa [optimize_ops] using h)
      case minus =>
        exact opt_un_idem .Minus (fun x => by simp [optimize_ops]) args e'
          (by simpa [optimize_ops] using h)
      case isNull =>
        exact opt_un_idem .IsNull (fun x => by simp [optimize_ops]) args e'
          (by simpa [optimize_ops] using h)
      case notNull =>
        exact opt_un_idem .NotNull (fun x => by simp [optimize_ops]) args e'
          (by simpa [optimize_ops] using h)
      case coalesce =>
        exact opt_nary_idem .Coalesce (fun x y => by simp [optimize_ops]) args e'
          (by simpa [optimize_ops] using h)
      case opOr =>
        exact opt_nary_idem .Or (fun x y => by simp [optimize_ops]) args e'
          (by simpa [optimize_ops] using h)
      case opAnd =>
        exact opt_nary_idem .And (fun x y => by simp [optimize_ops]) args e'
          (by simpa [optimize_ops] using h)
  | .ApplyAgg op aArgs args, e', h => by
      simp only [optimize_ops] at h
      cases hA : opt_list aArgs <;> simp [hA] at h
      cases hB : opt_list args <;> simp [hB] at h
      rw [← h]
      simp [optimize_ops, opt_idem_list aArgs _ hA, opt_idem_list args _ hB]
  | .FieldAcc f a, e', h => by
      simp only [optimize_ops] at h
      cases hA : optimize_ops a <;> simp [hA] at h
      rw [← h]
      simp [optimize_ops, opt_idem a _ hA]
  | .IdxAcc i a, e', h => by
      simp only [optimize_ops] at h
      cases hA : optimize_ops a <;> simp [hA] at h
      rw [← h]
      simp [optimize_ops, opt_idem a _ hA]
  | .IfExpr c t e, e', h => by
      simp only [optimize_ops] at h
      cases hC : optimize_ops c <;> simp [hC] at h
      cases hT : optimize_ops t <;> simp [hT] at h
      cases hE : optimize_ops e <;> simp [hE] at h
      rw [← h]
      simp [optimize_ops, opt_idem c _ hC, opt_idem t _ hT, opt_idem e _ hE]
  | .SwitchExpr ps, e', h => by
      simp only [optimize_ops] at h
      cases hP : opt_pairs ps <;> simp [hP] at h
      rw [← h]
      simp [optimize_ops, opt_idem_pairs ps _ hP]
  | .Add a b, e', h => by
      simp only [optimize_ops] at h; cases h; simp [optimize_ops]
  | .Sub a b, e', h => by
      simp only [optimize_ops] at h; cases h; simp [optimize_ops]
  | .Mul a b, e', h => by
      simp only [optimize_ops] at h; cases h; simp [optimize_ops]
  | .Div a b, e', h => by
      simp only [optimize_ops] at h; cases h; simp [optimize_ops]
  | .Pow a b, e', h => by
      simp only [optimize_ops] at h; cases h; simp [optimize_ops]
  | .Mod a b, e', h => by
      simp only [optimize_ops] at h; cases h; simp [optimize_ops]
  | .StrCat a b, e', h => by
      simp only [optimize_ops] at h; cases h; simp [optimize_ops]
  | .Eq a b, e', h => by
      simp only [optimize_ops] at h; cases h; simp [optimize_ops]
  | .Ne a b, e', h => by
      simp only [optimize_ops] at h; cases h; simp [optimize_ops]
  | .Gt a b, e', h => by
      simp only [optimize_ops] at h; cases h; simp [optimize_ops]
  | .Ge a b, e', h => by
      simp only [optimize_ops] at h; cases h; simp [optimize_ops]
  | .Lt a b, e', h => by
      simp only [optimize_ops] at h; cases h; simp [optimize_ops]
  | .Le a b, e', h => by
      simp only [optimize_ops] at h; cases h; simp [optimize_ops]
  | .Not a, e', h => by
      simp only [optimize_ops] at h; cases h; simp [optimize_ops]
  | .Minus a, e', h => by
      simp only [optimize_ops] at h; cases h; simp [optimize_ops]
  | .IsNull a, e', h => by
      simp only [optimize_ops] at h; cases h; simp [optimize_ops]
  | .NotNull a, e', h => by
      simp only [optimize_ops] at h; cases h; simp [optimize_ops]
  | .Coalesce a b, e', h => by
      simp only [optimize_ops] at h; cases h; simp [optimize_ops]
  | .Or a b, e', h => by
      simp only [optimize_ops] at h; cases h; simp [optimize_ops]
  | .And a b, e', h => by
      simp only [optimize_ops] at h; cases h; simp [optimize_ops]

theorem opt_idem_list : ∀ l l', opt_list l = .ok l' → opt_list l' = .ok l'
  | [], l', h => by
      simp only [opt_list] at h
      cases h
      simp [opt_list]
  | a :: as, l', h => by
      simp only [opt_list] at h
      cases hA : optimize_ops a <;> simp [hA] at h
      cases hAs : opt_list as <;> simp [hAs] at h
      rw [← h]
      simp [opt_list, opt_idem a _ hA, opt_idem_list as _ hAs]

theorem opt_idem_dict : ∀ d d', opt_dict d = .ok d' → opt_dict d' = .ok d'
  | [], d', h => by
      simp only [opt_dict] at h
      cases h
      simp [opt_dict]
  | (k, a) :: as, d', h => by
      simp only [opt_dict] at h
      cases hA : optimize_ops a <;> simp [hA] at h
      cases hAs : opt_dict as <;> simp [hAs] at h
      rw [← h]
      simp [opt_dict, opt_idem a _ hA, opt_idem_dict as _ hAs]

theorem opt_idem_pairs : ∀ ps ps', opt_pairs ps = .ok ps' → opt_pairs ps' = .ok ps'
  | [], ps', h => by
      simp only [opt_pairs] at h
      cases h
      simp [opt_pairs]
  | (m, b) :: rest, ps', h => by
      simp only [opt_pairs] at h
      cases hM : optimize_ops m <;> simp [hM] at h
      cases hB : optimize_ops b <;> simp [hB] at h
      cases hR : opt_pairs rest <;> simp [hR] at h
      rw [← h]
      simp [opt_pairs, opt_idem m _ hM, opt_idem b _ hB, opt_idem_pairs rest _ hR]

theorem opt_nary_idem : ∀ (ctor : Expr → Expr → Expr),
    (∀ x y, optimize_ops (ctor x y) = .ok (ctor x y)) →
    ∀ args r, opt_nary ctor args = .ok r → optimize_ops r = .ok r
  | ctor, _, [], r, h => by simp [opt_nary] at h
  | ctor, hP, a :: rest, r, h => by
      simp only [opt_nary] at h
      cases hA : optimize_ops a <;> simp [hA] at h
      exact opt_fold_idem ctor hP rest _ r (opt_idem a _ hA) h

end

@[simp]
theorem liftE_ok {α : Type} (x : Except EvalError α) (v : α) :
    liftE x = .ok v ↔ x = .ok v := by
  cases x <;> simp [liftE]

/-- The 13 specialized binary arithmetic/comparison/concatenation ops. -/
def is_bin_op : Op → Bool
  | .add | .sub | .mul | .div | .pow | .mod | .strcat
  | .eq | .ne | .gt | .ge | .lt | .le => true
  | _ => false

/-- The specialized node belonging to a binary operator. -/
def bin_node : Op → Expr → Expr → Expr
  | .sub => .Sub
  | .mul => .Mul
  | .div => .Div
  | .pow => .Pow
  | .mod => .Mod
  | .strcat => .StrCat
  | .eq => .Eq
  | .ne => .Ne
  | .gt => .Gt
  | .ge => .Ge
  | .lt => .Lt
  | .le => .Le
  | _ => .Add

/-- The three variadic short-circuit ops. -/
def is_nary_op : Op → Bool
  | .coalesce | .opOr | .opAnd => true
  | _ => false

/-- The specialized node belonging to a short-circuit operator. -/
def nary_node : Op → Expr → Expr → Expr
  | .opOr => .Or
  | .opAnd => .And
  | _ => .Coalesce

/-- Row evaluation of a specialized binary node, in closed form: the first
operand is evaluated, `Null` short-circuits to `Null`; then the second,
`Null` again short-circuits; otherwise the typed fast path runs. -/
theorem row_eval_bin_node (op : Op) (hb : is_bin_op op = true)
    (ctx : RowEvalContext) (a b : Expr) :
    row_eval ctx (bin_node op a b) =
      match row_eval ctx a with
      | .error e => .error e
      | .ok va =>
          if is_vnull va then .ok .Null
          else
            match row_eval ctx b with
            | .error e => .error e
            | .ok vb =>
                if is_vnull vb then .ok .Null
                else liftE (eval_two_non_null op va vb) := by
  cases op <;> simp [is_bin_op] at hb <;>
    simp only [bin_node, row_eval] <;>
    (cases hA : row_eval ctx a <;> simp only [hA]) <;> try rfl
  all_goals (rename_i va; cases va) <;> simp only [is_vnull] <;> try rfl
  all_goals simp only [if_false, Bool.false_eq_true, reduceIte]
  all_goals (cases hB : row_eval ctx b <;> simp only [hB]) <;> try rfl
  all_goals (rename_i vb; cases vb) <;> simp [is_vnull]

/-- The two strict unary ops. -/
def is_un_op : Op → Bool
  | .opNot | .minus => true
  | _ => false

/-- The specialized node belonging to a strict unary operator. -/
def un_node : Op → Expr → Expr
  | .minus => .Minus
  | _ => .Not

/-- The two null-tolerant unary ops. -/
def is_tolerant_op : Op → Bool
  | .isNull | .notNull => true
  | _ => false

/-- The specialized node belonging to a null-tolerant operator. -/
def tolerant_node : Op → Expr → Expr
  | .notNull => .NotNull
  | _ => .IsNull

/-- Row evaluation of a strict specialized unary node, in closed form. -/
theorem row_eval_un_node (op : Op) (hu : is_un_op op = true)
    (ctx : RowEvalContext) (a : Expr) :
    row_eval ctx (un_node op a) =
      match row_eval ctx a with
      | .error e => .error e
      | .ok va =>
          if is_vnull va then .ok .Null
          else liftE (eval_one_non_null op va) := by
  cases op <;> simp [is_un_op] at hu <;>
    simp only [un_node, row_eval] <;>
    (cases hA : row_eval ctx a <;> simp only [hA]) <;> try rfl
  all_goals (rename_i va; cases va) <;> simp [is_vnull]

/-- Row evaluation of a null-tolerant specialized node, in closed form. -/
theorem row_eval_tolerant_node (op : Op) (ht : is_tolerant_op op = true)
    (ctx : RowEvalContext) (a : Expr) :
    row_eval ctx (tolerant_node op a) =
      match row_eval ctx a with
      | .error e => .error e
      | .ok va => liftE (eval_one op va) := by
  cases op <;> simp [is_tolerant_op] at ht <;>
    simp only [tolerant_node, row_eval]

/-- Row evaluation of a short-circuit specialized node, in closed form. -/
theorem row_eval_nary_node (op : Op) (hn : is_nary_op op = true)
    (ctx : RowEvalContext) (a b : Expr) :
    row_eval ctx (nary_node op a b) =
      match row_eval ctx a with
      | .error e => .error e
      | .ok va =>
          if sc_decided op va then .ok va
          else if sc_continue op va then
            match row_eval ctx b with
            | .error e => .error e
            | .ok vb => liftE (sc_step op va vb)
          else .error (.err (.opTypeMismatch (op_name op) [va])) := by
  cases op <;> simp [is_nary_op] at hn <;>
    simp only [nary_node, row_eval]

/-- Optimizing a generic application of a binary operator is `opt_bin` of
its specialized node. -/
theorem opt_apply_bin (op : Op) (hb : is_bin_op op = true) (args : List Expr) :
    optimize_ops (.Apply op args) = opt_bin (bin_node op) args := by
  cases op <;> simp [is_bin_op] at hb <;> simp [optimize_ops, bin_node]

/-- Optimizing a generic application of a strict unary operator is
`opt_un` of its specialized node. -/
theorem opt_apply_un (op : Op) (hu : is_un_op op = true) (args : List Expr) :
    optimize_ops (.Apply op args) = opt_un (un_node op) args := by
  cases op <;> simp [is_un_op] at hu <;> simp [optimize_ops, un_node]

/-- Optimizing a generic application of a null-tolerant operator is
`opt_un` of its specialized node. -/
theorem opt_apply_tolerant (op : Op) (ht : is_tolerant_op op = true) (args : List Expr) :
    optimize_ops (.Apply op args) = opt_un (tolerant_node op) args := by
  cases op <;> simp [is_tolerant_op] at ht <;> simp [optimize_ops, tolerant_node]

/-- Optimizing a generic application of a short-circuit operator is
`opt_nary` of its specialized node. -/
theorem opt_apply_nary (op : Op) (hn : is_nary_op op = true) (args : List Expr) :
    optimize_ops (.Apply op args) = opt_nary (nary_node op) args := by
  cases op <;> simp [is_nary_op] at hn <;> simp [optimize_ops, nary_node]

/-- Row evaluation of a generic application enters the argument loop. -/
theorem row_eval_apply (ctx : RowEvalContext) (op : Op) (args : List Expr) :
    row_eval ctx (.Apply op args) = row_apply_go ctx op args [] := by
  simp [row_eval]

theorem op_eval_bin (op : Op) (hb : is_bin_op op = true) (a b : Value) :
    op_eval op [a, b] = eval_two_non_null op a b := by
  cases op <;> simp [is_bin_op] at hb <;> rfl

theorem op_eval_un (op : Op) (hu : is_un_op op = true) (a : Value) :
    op_eval op [a] = eval_one_non_null op a := by
  cases op <;> simp [is_un_op] at hu <;> rfl

theorem op_eval_tolerant (op : Op) (ht : is_tolerant_op op = true) (a : Value) :
    op_eval op [a] = eval_one op a := by
  cases op <;> simp [is_tolerant_op] at ht <;> rfl

theorem sc_fold_congr (f g : Value → Value → Except EvalError Value)
    (hfg : ∀ a b, f a b = g a b) :
    ∀ vs acc, sc_fold f acc vs = sc_fold g acc vs := by
  intro vs
  induction vs with
  | nil => intro acc; rfl
  | cons v rest ih =>
      intro acc
      simp only [sc_fold, hfg]
      cases g acc v <;> simp [ih]

theorem op_eval_nary (op : Op) (hn : is_nary_op op = true) (vs : List Value) :
    op_eval op vs = sc_fold (sc_step op) (sc_init op) vs := by
  cases op <;> simp [is_nary_op] at hn <;>
    refine Eq.trans (by rfl) (sc_fold_congr _ _ (fun a b => by rfl) vs _)

theorem non_null_of_bin (op : Op) (hb : is_bin_op op = true) :
    non_null_args op = true := by
  cases op <;> simp [is_bin_op] at hb <;> rfl

theorem non_null_of_un (op : Op) (hu : is_un_op op = true) :
    non_null_args op = true := by
  cases op <;> simp [is_un_op] at hu <;> rfl

theorem non_null_of_tolerant (op : Op) (ht : is_tolerant_op op = true) :
    non_null_args op = false := by
  cases op <;> simp [is_tolerant_op] at ht <;> rfl

theorem non_null_of_nary (op : Op) (hn : is_nary_op op = true) :
    non_null_args op = false := by
  cases op <;> simp [is_nary_op] at hn <;> rfl

theorem exact_len_bin (op : Op) (hb : is_bin_op op = true) (n : Nat)
    (h : args_exact_at op n = true) : n = 2 := by
  cases op <;> simp [is_bin_op] at hb <;>
    (simp [args_exact_at, arity_ok, op_arity, op_min_args] at h; omega)

theorem exact_len_un (op : Op) (hu : is_un_op op = true) (n : Nat)
    (h : args_exact_at op n = true) : n = 1 := by
  cases op <;> simp [is_un_op] at hu <;>
    (simp [args_exact_at, arity_ok, op_arity, op_min_args] at h; omega)

theorem exact_len_tolerant (op : Op) (ht : is_tolerant_op op = true) (n : Nat)
    (h : args_exact_at op n = true) : n = 1 := by
  cases op <;> simp [is_tolerant_op] at ht <;>
    (simp [args_exact_at, arity_ok, op_arity, op_min_args] at h; omega)

theorem exact_len_nary (op : Op) (hn : is_nary_op op = true) (n : Nat)
    (h : args_exact_at op n = true) : 1 ≤ n := by
  cases op <;> simp [is_nary_op] at hn <;>
    (simp [args_exact_at, arity_ok, op_arity, op_min_args] at h; omega)

/-- Every operator is exactly one of the four specialized families. -/
theorem op_families (op : Op) :
    is_bin_op op = true ∨ is_un_op op = true ∨ is_tolerant_op op = true ∨
      is_nary_op op = true := by
  cases op <;> simp [is_bin_op, is_un_op, is_tolerant_op, is_nary_op]

/-- A decided accumulator absorbs every further step. -/
theorem sc_decided_absorb (op : Op) (hn : is_nary_op op = true)
    (acc w : Value) (hd : sc_decided op acc = true) :
    sc_step op acc w = .ok acc := by
  cases op <;> simp [is_nary_op] at hn <;>
    simp only [sc_decided] at hd
  case coalesce =>
      cases acc <;> simp [is_vnull] at hd <;> rfl
  case opOr =>
      have : acc = .Bool true := by
        have := (beq_iff_eq (a := acc) (b := Value.Bool true)).mp hd
        exact this
      subst this
      rfl
  case opAnd =>
      have : acc = .Bool false := by
        have := (beq_iff_eq (a := acc) (b := Value.Bool false)).mp hd
        exact this
      subst this
      rfl

/-- A successful undecided step starts from a legal continuation value. -/
theorem sc_step_ok_continue (op : Op) (hn : is_nary_op op = true)
    (acc w u : Value) (hs : sc_step op acc w = .ok u)
    (hd : sc_decided op acc = false) : sc_continue op acc = true := by
  cases op <;> simp [is_nary_op] at hn
  case coalesce =>
      cases acc <;> simp [sc_decided, is_vnull] at hd <;> rfl
  case opOr =>
      cases acc <;> simp only [sc_step, or3] at hs <;>
        first
          | (exact absurd hs (by simp))
          | rfl
          | (simp [sc_decided] at hd; subst hd; rfl)
  case opAnd =>
      cases acc <;> simp only [sc_step, and3] at hs <;>
        first
          | (exact absurd hs (by simp))
          | rfl
          | (simp [sc_decided] at hd; subst hd; rfl)

@[simp]
theorem is_vnull_iff (v : Value) : is_vnull v = true ↔ v = .Null := by
  cases v <;> simp [is_vnull]

/-- Pointwise successful row evaluation of an argument list. -/
def rows_to (ctx : RowEvalContext) : List Expr → List Value → Prop
  | [], [] => True
  | e :: es, w :: ws => row_eval ctx e = .ok w ∧ rows_to ctx es ws
  | _, _ => False

/-- A successful run of the generic-`Apply` loop of `row_eval` under a
null-tolerant operator evaluates every argument and hands the collected
values to `op.eval`. -/
theorem row_apply_go_inv (ctx : RowEvalContext) (op : Op)
    (hnn : non_null_args op = false) :
    ∀ args acc v, row_apply_go ctx op args acc = .ok v →
      ∃ vs, rows_to ctx args vs ∧ op_eval op (acc ++ vs) = .ok v := by
  intro args
  induction args with
  | nil =>
      intro acc v h
      refine ⟨[], trivial, ?_⟩
      simpa [row_apply_go, liftE_ok] using h
  | cons a rest ih =>
      intro acc v h
      simp only [row_apply_go, hnn, Bool.false_and, if_false] at h
      cases hA : row_eval ctx a <;> simp only [hA] at h
      · exact absurd h (by simp)
      · obtain ⟨vs, hrows, hop⟩ := ih _ v h
        refine ⟨_ :: vs, ⟨hA, hrows⟩, ?_⟩
        simpa [List.append_assoc] using hop

/-- Folding the first value into the neutral seed yields that value. -/
theorem sc_step_init_ok (op : Op) (hn : is_nary_op op = true) (w u : Value)
    (h : sc_step op (sc_init op) w = .ok u) : u = w := by
  cases op <;> simp [is_nary_op] at hn
  case coalesce =>
      simp only [sc_step, sc_init, coalesce2] at h
      cases h
      rfl
  case opOr =>
      cases w <;> simp only [sc_step, sc_init, or3] at h <;>
        first
          | (cases h; rfl)
          | (exact absurd h (by simp))
  case opAnd =>
      cases w <;> simp only [sc_step, sc_init, and3] at h <;>
        first
          | (cases h; rfl)
          | (exact absurd h (by simp))


/-- `row_eval_bin_node`, specialized to a first operand that evaluated. -/
theorem row_eval_bin_node_ok (op : Op) (hb : is_bin_op op = true)
    (ctx : RowEvalContext) (a b : Expr) (va : Value)
    (ha : row_eval ctx a = .ok va) :
    row_eval ctx (bin_node op a b) =
      if is_vnull va then .ok .Null
      else
        match row_eval ctx b with
        | .error e => .error e
        | .ok vb =>
            if is_vnull vb then .ok .Null
            else liftE (eval_two_non_null op va vb) := by
  rw [row_eval_bin_node op hb, ha]

/-- `row_eval_un_node`, specialized to an operand that evaluated. -/
theorem row_eval_un_node_ok (op : Op) (hu : is_un_op op = true)
    (ctx : RowEvalContext) (a : Expr) (va : Value)
    (ha : row_eval ctx a = .ok va) :
    row_eval ctx (un_node op a) =
      if is_vnull va then .ok .Null
      else liftE (eval_one_non_null op va) := by
  rw [row_eval_un_node op hu, ha]

/-- `row_eval_tolerant_node`, specialized to an operand that evaluated. -/
theorem row_eval_tolerant_node_ok (op : Op) (ht : is_tolerant_op op = true)
    (ctx : RowEvalContext) (a : Expr) (va : Value)
    (ha : row_eval ctx a = .ok va) :
    row_eval ctx (tolerant_node op a) = liftE (eval_one op va) := by
  rw [row_eval_tolerant_node op ht, ha]

/-- `row_eval_nary_node`, specialized to a first operand that evaluated. -/
theorem row_eval_nary_node_ok (op : Op) (hn : is_nary_op op = true)
    (ctx : RowEvalContext) (a b : Expr) (va : Value)
    (ha : row_eval ctx a = .ok va) :
    row_eval ctx (nary_node op a b) =
      if sc_decided op va then .ok va
      else if sc_continue op va then
        match row_eval ctx b with
        | .error e => .error e
        | .ok vb => liftE (sc_step op va vb)
      else .error (.err (.opTypeMismatch (op_name op) [va])) := by
  rw [row_eval_nary_node op hn, ha]

set_option maxHeartbeats 1000000

mutual

theorem preserve : ∀ (ctx : RowEvalContext) (e e' : Expr) (v : Value),
    args_exact e = true → optimize_ops e = .ok e' →
    row_eval ctx e = .ok v → row_eval ctx e' = .ok v
  | ctx, .Const c, e', v, _, hopt, hrow => by
      simp only [optimize_ops] at hopt
      cases hopt
      exact hrow
  | ctx, .Variable x, e', v, _, hopt, hrow => by
      simp [row_eval] at hrow
  | ctx, .TableCol t c, e', v, _, hopt, hrow => by
      simp [row_eval] at hrow
  | ctx, .TupleSetIdx i, e', v, _, hopt, hrow => by
      simp only [optimize_ops] at hopt
      cases hopt
      exact hrow
  | ctx, .List l, e', v, hex, hopt, hrow => by
      simp only [args_exact] at hex
      simp only [optimize_ops] at hopt
      cases hL : opt_list l <;> simp only [hL] at hopt
      · exact absurd hopt (by simp)
      · simp only [Except.ok.injEq] at hopt
        simp only [row_eval] at hrow
        cases hV : row_eval_list ctx l <;> simp only [hV] at hrow
        · exact absurd hrow (by simp)
        · simp only [Except.ok.injEq] at hrow
          rw [← hopt, ← hrow]
          simp only [row_eval, preserve_list ctx l _ _ hex hL hV]
  | ctx, .Dict d, e', v, hex, hopt, hrow => by
      simp only [args_exact] at hex
      simp only [optimize_ops] at hopt
      cases hD : opt_dict d <;> simp only [hD] at hopt
      · exact absurd hopt (by simp)
      · simp only [Except.ok.injEq] at hopt
        simp only [row_eval] at hrow
        cases hV : row_eval_dict ctx d <;> simp only [hV] at hrow
        · exact absurd hrow (by simp)
        · simp only [Except.ok.injEq] at hrow
          rw [← hopt, ← hrow]
          simp only [row_eval, preserve_dict ctx d _ _ hex hD hV]
  | ctx, .Apply op args, e', v, hex, hopt, hrow => by
      simp only [args_exact, Bool.and_eq_true] at hex
      rw [row_eval_apply] at hrow
      rcases op_families op with hb | hu | ht | hn
      · rw [opt_apply_bin op hb] at hopt
        exact preserve_bin ctx op hb args e' v hex.2
          (exact_len_bin op hb _ hex.1) hopt hrow
      · rw [opt_apply_un op hu] at hopt
        exact preserve_un ctx op hu args e' v hex.2
          (exact_len_un op hu _ hex.1) hopt hrow
      · rw [opt_apply_tolerant op ht] at hopt
        exact preserve_tolerant ctx op ht args e' v hex.2
          (exact_len_tolerant op ht _ hex.1) hopt hrow
      · rw [opt_apply_nary op hn] at hopt
        exact preserve_nary ctx op hn args e' v hex.2
          (exact_len_nary op hn _ hex.1) hopt hrow
  | ctx, .ApplyAgg op aArgs args, e', v, _, hopt, hrow => by
      simp [row_eval] at hrow
  | ctx, .FieldAcc f a, e', v, hex, hopt, hrow => by
      simp only [args_exact] at hex
      simp only [optimize_ops] at hopt
      cases hA : optimize_ops a <;> simp only [hA] at hopt
      · exact absurd hopt (by simp)
      · rename_i a'
        simp only [Except.ok.injEq] at hopt
        simp only [row_eval] at hrow
        cases hV : row_eval ctx a <;> simp only [hV] at hrow
        · exact absurd hrow (by simp)
        · rename_i w
          have hA' : row_eval ctx a' = .ok w := preserve ctx a a' w hex hA hV
          rw [← hopt]
          cases w <;> simp only [Except.ok.injEq] at hrow <;>
            try exact absurd hrow (by simp)
          case Null =>
            rw [← hrow]
            simp only [row_eval, hA']
          case Dict d =>
            rw [← hrow]
            simp only [row_eval, hA']
  | ctx, .IdxAcc i a, e', v, hex, hopt, hrow => by
      simp only [args_exact] at hex
      simp only [optimize_ops] at hopt
      cases hA : optimize_ops a <;> simp only [hA] at hopt
      · exact absurd hopt (by simp)
      · rename_i a'
        simp only [Except.ok.injEq] at hopt
        simp only [row_eval] at hrow
        cases hV : row_eval ctx a <;> simp only [hV] at hrow
        · exact absurd hrow (by simp)
        · rename_i w
          have hA' : row_eval ctx a' = .ok w := preserve ctx a a' w hex hA hV
          rw [← hopt]
          cases w <;> simp only [Except.ok.injEq] at hrow <;>
            try exact absurd hrow (by simp)
          case Null =>
            rw [← hrow]
            simp only [row_eval, hA']
          case List l =>
            rw [← hrow]
            simp only [row_eval, hA']
  | ctx, .IfExpr c t e, e', v, hex, hopt, hrow => by
      simp only [args_exact, Bool.and_eq_true] at hex
      simp only [optimize_ops] at hopt
      cases hC : optimize_ops c <;> simp [hC] at hopt
      cases hT : optimize_ops t <;> simp [hT] at hopt
      cases hE : optimize_ops e <;> simp [hE] at hopt
      simp only [row_eval] at hrow
      cases hV : row_eval ctx c <;> simp only [hV] at hrow
      · exact absurd hrow (by simp)
      · rename_i w
        rw [← hopt]
        have hC' := preserve ctx c _ w hex.1.1 hC hV
        cases w
        case Bool b =>
          cases b
          · simp only [row_eval, hC']
            exact preserve ctx e _ v hex.2 hE hrow
          · simp only [row_eval, hC']
            exact preserve ctx t _ v hex.1.2 hT hrow
        case Null =>
          simp only [row_eval, hC']
          exact preserve ctx e _ v hex.2 hE hrow
        all_goals simp at hrow
  | ctx, .SwitchExpr [], e', v, hex, hopt, hrow => by
      simp [row_eval] at hrow
  | ctx, .SwitchExpr ((s, sb) :: arms), e', v, hex, hopt, hrow => by
      simp only [args_exact, args_exact_pairs, Bool.and_eq_true] at hex
      simp only [optimize_ops] at hopt
      cases hP : opt_pairs ((s, sb) :: arms) <;> simp only [hP] at hopt
      · exact absurd hopt (by simp)
      · rename_i ps'
        simp only [Except.ok.injEq] at hopt
        simp only [opt_pairs] at hP
        cases hS : optimize_ops s <;> simp only [hS] at hP
        · exact absurd hP (by simp)
        cases hSb : optimize_ops sb <;> simp only [hSb] at hP
        · exact absurd hP (by simp)
        cases hArms : opt_pairs arms <;> simp only [hArms] at hP
        · exact absurd hP (by simp)
        simp only [Except.ok.injEq] at hP
        simp only [row_eval] at hrow
        cases hV : row_eval ctx s <;> simp only [hV] at hrow
        · exact absurd hrow (by simp)
        · rename_i sv
          rw [← hopt, ← hP]
          have hS' := preserve ctx s _ sv hex.1.1 hS hV
          simp only [row_eval, hS']
          exact preserve_arms ctx sv arms _ v hex.2 hArms hrow
  | ctx, .Add a b, e', v, _, hopt, hrow => by
      simp only [optimize_ops] at hopt; cases hopt; exact hrow
  | ctx, .Sub a b, e', v, _, hopt, hrow => by
      simp only [optimize_ops] at hopt; cases hopt; exact hrow
  | ctx, .Mul a b, e', v, _, hopt, hrow => by
      simp only [optimize_ops] at hopt; cases hopt; exact hrow
  | ctx, .Div a b, e', v, _, hopt, hrow => by
      simp only [optimize_ops] at hopt; cases hopt; exact hrow
  | ctx, .Pow a b, e', v, _, hopt, hrow => by
      simp only [optimize_ops] at hopt; cases hopt; exact hrow
  | ctx, .Mod a b, e', v, _, hopt, hrow => by
      simp only [optimize_ops] at hopt; cases hopt; exact hrow
  | ctx, .StrCat a b, e', v, _, hopt, hrow => by
      simp only [optimize_ops] at hopt; cases hopt; exact hrow
  | ctx, .Eq a b, e', v, _, hopt, hrow => by
      simp only [optimize_ops] at hopt; cases hopt; exact hrow
  | ctx, .Ne a b, e', v, _, hopt, hrow => by
      simp only [optimize_ops] at hopt; cases hopt; exact hrow
  | ctx, .Gt a b, e', v, _, hopt, hrow => by
      simp only [optimize_ops] at hopt; cases hopt; exact hrow
  | ctx, .Ge a b, e', v, _, hopt, hrow => by
      simp only [optimize_ops] at hopt; cases hopt; exact hrow
  | ctx, .Lt a b, e', v, _, hopt, hrow => by
      simp only [optimize_ops] at hopt; cases hopt; exact hrow
  | ctx, .Le a b, e', v, _, hopt, hrow => by
      simp only [optimize_ops] at hopt; cases hopt; exact hrow
  | ctx, .Not a, e', v, _, hopt, hrow => by
      simp only [optimize_ops] at hopt; cases hopt; exact hrow
  | ctx, .Minus a, e', v, _, hopt, hrow => by
      simp only [optimize_ops] at hopt; cases hopt; exact hrow
  | ctx, .IsNull a, e', v, _, hopt, hrow => by
      simp only [optimize_ops] at hopt; cases hopt; exact hrow
  | ctx, .NotNull a, e', v, _, hopt, hrow => by
      simp only [optimize_ops] at hopt; cases hopt; exact hrow
  | ctx, .Coalesce a b, e', v, _, hopt, hrow => by
      simp only [optimize_ops] at hopt; cases hopt; exact hrow
  | ctx, .Or a b, e', v, _, hopt, hrow => by
      simp only [optimize_ops] at hopt; cases hopt; exact hrow
  | ctx, .And a b, e', v, _, hopt, hrow => by
      simp only [optimize_ops] at hopt; cases hopt; exact hrow
termination_by ctx e => sizeOf e

theorem preserve_list : ∀ (ctx : RowEvalContext) (l l' : List Expr)
    (vs : List Value), args_exact_list l = true → opt_list l = .ok l' →
    row_eval_list ctx l = .ok vs → row_eval_list ctx l' = .ok vs
  | ctx, [], l', vs, _, hopt, hrow => by
      simp only [opt_list] at hopt
      cases hopt
      exact hrow
  | ctx, a :: as, l', vs, hex, hopt, hrow => by
      simp only [args_exact_list, Bool.and_eq_true] at hex
      simp only [opt_list] at hopt
      cases hA : optimize_ops a <;> simp only [hA] at hopt
      · exact absurd hopt (by simp)
      cases hAs : opt_list as <;> simp only [hAs] at hopt
      · exact absurd hopt (by simp)
      simp only [Except.ok.injEq] at hopt
      simp only [row_eval_list] at hrow
      cases hV : row_eval ctx a <;> simp only [hV] at hrow
      · exact absurd hrow (by simp)
      cases hVs : row_eval_list ctx as <;> simp only [hVs] at hrow
      · exact absurd hrow (by simp)
      simp only [Except.ok.injEq] at hrow
      rw [← hopt, ← hrow]
      simp only [row_eval_list, preserve ctx a _ _ hex.1 hA hV,
        preserve_list ctx as _ _ hex.2 hAs hVs]
termination_by ctx l => sizeOf l

theorem preserve_dict : ∀ (ctx : RowEvalContext) (d d' : List (String × Expr))
    (vs : List (String × Value)), args_exact_dict d = true → opt_dict d = .ok d' →
    row_eval_dict ctx d = .ok vs → row_eval_dict ctx d' = .ok vs
  | ctx, [], d', vs, _, hopt, hrow => by
      simp only [opt_dict] at hopt
      cases hopt
      exact hrow
  | ctx, (k, a) :: as, d', vs, hex, hopt, hrow => by
      simp only [args_exact_dict, Bool.and_eq_true] at hex
      simp only [opt_dict] at hopt
      cases hA : optimize_ops a <;> simp only [hA] at hopt
      · exact absurd hopt (by simp)
      cases hAs : opt_dict as <;> simp only [hAs] at hopt
      · exact absurd hopt (by simp)
      simp only [Except.ok.injEq] at hopt
      simp only [row_eval_dict] at hrow
      cases hV : row_eval ctx a <;> simp only [hV] at hrow
      · exact absurd hrow (by simp)
      cases hVs : row_eval_dict ctx as <;> simp only [hVs] at hrow
      · exact absurd hrow (by simp)
      simp only [Except.ok.injEq] at hrow
      rw [← hopt, ← hrow]
      simp only [row_eval_dict, preserve ctx a _ _ hex.1 hA hV,
        preserve_dict ctx as _ _ hex.2 hAs hVs]
termination_by ctx d => sizeOf d

theorem preserve_arms : ∀ (ctx : RowEvalContext) (sv : Value)
    (arms arms' : List (Expr × Expr)) (v : Value),
    args_exact_pairs arms = true → opt_pairs arms = .ok arms' →
    row_switch_arms ctx sv arms = .ok v → row_switch_arms ctx sv arms' = .ok v
  | ctx, sv, [], arms', v, _, hopt, hrow => by
      simp only [opt_pairs] at hopt
      cases hopt
      exact hrow
  | ctx, sv, [(m, dflt)], arms', v, hex, hopt, hrow => by
      simp only [args_exact_pairs, Bool.and_eq_true] at hex
      simp only [opt_pairs] at hopt
      cases hM : optimize_ops m <;> simp only [hM] at hopt
      · exact absurd hopt (by simp)
      cases hD : optimize_ops dflt <;> simp only [hD] at hopt
      · exact absurd hopt (by simp)
      simp only [Except.ok.injEq] at hopt
      simp only [row_switch_arms] at hrow
      rw [← hopt]
      simp only [row_switch_arms]
      exact preserve ctx dflt _ v hex.1.2 hD hrow
  | ctx, sv, (m, b) :: (m₂, b₂) :: rest, arms', v, hex, hopt, hrow => by
      simp only [args_exact_pairs, Bool.and_eq_true] at hex
      simp only [opt_pairs] at hopt
      cases hM : optimize_ops m <;> simp only [hM] at hopt
      · exact absurd hopt (by simp)
      cases hB : optimize_ops b <;> simp only [hB] at hopt
      · exact absurd hopt (by simp)
      cases hM₂ : optimize_ops m₂ <;> simp only [hM₂] at hopt
      · exact absurd hopt (by simp)
      cases hB₂ : optimize_ops b₂ <;> simp only [hB₂] at hopt
      · exact absurd hopt (by simp)
      cases hR : opt_pairs rest <;> simp only [hR] at hopt
      · exact absurd hopt (by simp)
      simp only [Except.ok.injEq] at hopt
      simp only [row_switch_arms] at hrow
      cases hMv : row_eval ctx m <;> simp only [hMv] at hrow
      · exact absurd hrow (by simp)
      · rename_i mv
        have hM' := preserve ctx m _ mv hex.1.1 hM hMv
        rw [← hopt]
        simp only [row_switch_arms, hM']
        by_cases hmv : mv = sv
        · simp only [if_pos hmv] at hrow ⊢
          exact preserve ctx b _ v hex.1.2 hB hrow
        · simp only [if_neg hmv] at hrow ⊢
          refine preserve_arms ctx sv ((m₂, b₂) :: rest) _ v ?_ ?_ hrow
          · simp only [args_exact_pairs, Bool.and_eq_true]
            exact ⟨⟨hex.2.1.1, hex.2.1.2⟩, hex.2.2⟩
          · simp only [opt_pairs, hM₂, hB₂, hR]
termination_by ctx sv arms => sizeOf arms

theorem preserve_bin : ∀ (ctx : RowEvalContext) (op : Op), is_bin_op op = true →
    ∀ (args : List Expr) (e' : Expr) (v : Value),
    args_exact_list args = true → args.length = 2 →
    opt_bin (bin_node op) args = .ok e' →
    row_apply_go ctx op args [] = .ok v →
    row_eval ctx e' = .ok v
  | ctx, op, hb, [a, b], e', v, hex, _, hopt, hrow => by
      simp only [args_exact_list, Bool.and_eq_true, Bool.and_true] at hex
      simp only [opt_bin] at hopt
      cases hA : optimize_ops a <;> simp only [hA] at hopt
      · exact absurd hopt (by simp)
      cases hB : optimize_ops b <;> simp only [hB] at hopt
      · exact absurd hopt (by simp)
      rename_i a' b'
      simp only [Except.ok.injEq] at hopt
      have hnn := non_null_of_bin op hb
      simp only [row_apply_go, hnn, Bool.true_and, List.nil_append] at hrow
      cases hVa : row_eval ctx a <;> simp only [hVa] at hrow
      · exact absurd hrow (by simp)
      · rename_i va
        have hA' := preserve ctx a a' va hex.1 hA hVa
        rw [← hopt, row_eval_bin_node_ok op hb ctx a' b' va hA']
        cases hva : is_vnull va
        case true =>
          simp only [hva, if_true] at hrow ⊢
          exact hrow
        case false =>
          simp only [hva, Bool.false_eq_true, if_false] at hrow ⊢
          cases hVb : row_eval ctx b <;> simp only [hVb] at hrow
          · exact absurd hrow (by simp)
          · rename_i vb
            have hB' := preserve ctx b b' vb hex.2 hB hVb
            simp only [hB']
            cases hvb : is_vnull vb
            case true =>
              simp only [hvb, if_true] at hrow ⊢
              exact hrow
            case false =>
              simp only [hvb, Bool.false_eq_true, if_false] at hrow ⊢
              simp only [List.cons_append, List.nil_append, row_apply_go] at hrow
              rw [liftE_ok, op_eval_bin op hb] at hrow
              rw [liftE_ok]
              exact hrow
  | _, _, _, [], _, _, _, hlen, _, _ => by
      simp only [List.length_nil] at hlen; omega
  | _, _, _, [_], _, _, _, hlen, _, _ => by
      simp only [List.length_cons, List.length_nil] at hlen; omega
  | _, _, _, _ :: _ :: _ :: _, _, _, _, hlen, _, _ => by
      simp only [List.length_cons] at hlen; omega
termination_by ctx op hb args => sizeOf args

theorem preserve_un : ∀ (ctx : RowEvalContext) (op : Op), is_un_op op = true →
    ∀ (args : List Expr) (e' : Expr) (v : Value),
    args_exact_list args = true → args.length = 1 →
    opt_un (un_node op) args = .ok e' →
    row_apply_go ctx op args [] = .ok v →
    row_eval ctx e' = .ok v
  | ctx, op, hu, [a], e', v, hex, _, hopt, hrow => by
      simp only [args_exact_list, Bool.and_eq_true, Bool.and_true] at hex
      simp only [opt_un] at hopt
      cases hA : optimize_ops a <;> simp only [hA] at hopt
      · exact absurd hopt (by simp)
      rename_i a'
      simp only [Except.ok.injEq] at hopt
      have hnn := non_null_of_un op hu
      simp only [row_apply_go, hnn, Bool.true_and, List.nil_append] at hrow
      cases hVa : row_eval ctx a <;> simp only [hVa] at hrow
      · exact absurd hrow (by simp)
      · rename_i va
        have hA' := preserve ctx a a' va hex hA hVa
        rw [← hopt, row_eval_un_node_ok op hu ctx a' va hA']
        cases hva : is_vnull va
        case true =>
          simp only [hva, if_true] at hrow ⊢
          exact hrow
        case false =>
          simp only [hva, Bool.false_eq_true, if_false] at hrow ⊢
          rw [liftE_ok, op_eval_un op hu] at hrow
          rw [liftE_ok]
          exact hrow
  | _, _, _, [], _, _, _, hlen, _, _ => by
      simp only [List.length_nil] at hlen; omega
  | _, _, _, _ :: _ :: _, _, _, _, hlen, _, _ => by
      simp only [List.length_cons] at hlen; omega
termination_by ctx op hu args => sizeOf args

theorem preserve_tolerant : ∀ (ctx : RowEvalContext) (op : Op),
    is_tolerant_op op = true →
    ∀ (args : List Expr) (e' : Expr) (v : Value),
    args_exact_list args = true → args.length = 1 →
    opt_un (tolerant_node op) args = .ok e' →
    row_apply_go ctx op args [] = .ok v →
    row_eval ctx e' = .ok v
  | ctx, op, ht, [a], e', v, hex, _, hopt, hrow => by
      simp only [args_exact_list, Bool.and_eq_true, Bool.and_true] at hex
      simp only [opt_un] at hopt
      cases hA : optimize_ops a <;> simp only [hA] at hopt
      · exact absurd hopt (by simp)
      rename_i a'
      simp only [Except.ok.injEq] at hopt
      have hnn := non_null_of_tolerant op ht
      simp only [row_apply_go, hnn, Bool.false_and, Bool.false_eq_true,
        if_false, List.nil_append] at hrow
      cases hVa : row_eval ctx a <;> simp only [hVa] at hrow
      · exact absurd hrow (by simp)
      · rename_i va
        have hA' := preserve ctx a a' va hex hA hVa
        rw [← hopt, row_eval_tolerant_node_ok op ht ctx a' va hA']
        rw [liftE_ok, op_eval_tolerant op ht] at hrow
        rw [liftE_ok]
        exact hrow
  | _, _, _, [], _, _, _, hlen, _, _ => by
      simp only [List.length_nil] at hlen; omega
  | _, _, _, _ :: _ :: _, _, _, _, hlen, _, _ => by
      simp only [List.length_cons] at hlen; omega
termination_by ctx op ht args => sizeOf args

theorem preserve_nary : ∀ (ctx : RowEvalContext) (op : Op), is_nary_op op = true →
    ∀ (args : List Expr) (e' : Expr) (v : Value),
    args_exact_list args = true → 1 ≤ args.length →
    opt_nary (nary_node op) args = .ok e' →
    row_apply_go ctx op args [] = .ok v →
    row_eval ctx e' = .ok v
  | ctx, op, hn, a :: rest, e', v, hex, _, hopt, hrow => by
      simp only [args_exact_list, Bool.and_eq_true] at hex
      simp only [opt_nary] at hopt
      cases hA : optimize_ops a <;> simp only [hA] at hopt
      · exact absurd hopt (by simp)
      rename_i a'
      have hnn := non_null_of_nary op hn
      obtain ⟨vs, hrows, hop⟩ := row_apply_go_inv ctx op hnn (a :: rest) [] v hrow
      rw [List.nil_append] at hop
      rw [op_eval_nary op hn] at hop
      cases vs with
      | nil => exact absurd hrows (by simp [rows_to])
      | cons va ws =>
          obtain ⟨hva, hrest⟩ := hrows
          simp only [sc_fold] at hop
          cases hS : sc_step op (sc_init op) va <;> simp only [hS] at hop
          · exact absurd hop (by simp)
          · rename_i w
            cases sc_step_init_ok op hn va w hS
            have hA' := preserve ctx a a' va hex.1 hA hva
            exact preserve_fold ctx op hn rest a' va ws v e' hex.2 hrest hA' hop hopt
  | _, _, _, [], _, _, _, hlen, _, _ => by
      simp only [List.length_nil] at hlen; omega
termination_by ctx op hn args => sizeOf args

theorem preserve_fold : ∀ (ctx : RowEvalContext) (op : Op), is_nary_op op = true →
    ∀ (rest : List Expr) (accE : Expr) (accV : Value) (vs : List Value)
      (v : Value) (r : Expr),
    args_exact_list rest = true → rows_to ctx rest vs →
    row_eval ctx accE = .ok accV →
    sc_fold (sc_step op) accV vs = .ok v →
    opt_fold (nary_node op) accE rest = .ok r →
    row_eval ctx r = .ok v
  | ctx, op, hn, [], accE, accV, vs, v, r, _, hrows, hacc, hfold, hopt => by
      cases vs with
      | nil =>
          simp only [sc_fold] at hfold
          cases hfold
          simp only [opt_fold] at hopt
          cases hopt
          exact hacc
      | cons w ws => exact absurd hrows (by simp [rows_to])
  | ctx, op, hn, x :: rest, accE, accV, vs, v, r, hex, hrows, hacc, hfold, hopt => by
      simp only [args_exact_list, Bool.and_eq_true] at hex
      cases vs with
      | nil => exact absurd hrows (by simp [rows_to])
      | cons w ws =>
          obtain ⟨hw, hws⟩ := hrows
          simp only [opt_fold] at hopt
          cases hX : optimize_ops x <;> simp only [hX] at hopt
          · exact absurd hopt (by simp)
          · rename_i x'
            simp only [sc_fold] at hfold
            cases hS : sc_step op accV w <;> simp only [hS] at hfold
            · exact absurd hfold (by simp)
            · rename_i u
              have hx' := preserve ctx x x' w hex.1 hX hw
              have hnode : row_eval ctx (nary_node op accE x') = .ok u := by
                rw [row_eval_nary_node_ok op hn ctx accE x' accV hacc]
                cases hd : sc_decided op accV
                case false =>
                  have hcont := sc_step_ok_continue op hn accV w u hS hd
                  simp only [hd, hcont, Bool.false_eq_true, if_false, if_true, hx']
                  rw [liftE_ok]
                  exact hS
                case true =>
                  have habs := sc_decided_absorb op hn accV w hd
                  rw [habs] at hS
                  cases hS
                  simp only [hd, if_true]
              exact preserve_fold ctx op hn rest (nary_node op accE x') u ws v r
                hex.2 hws hnode hfold hopt
termination_by ctx op hn rest => sizeOf rest

end

/-- A binary-family operator is not short-circuit. -/
theorem not_nary_of_bin (op : Op) (h : is_bin_op op = true) :
    is_nary_op op = false := by
  cases op <;> simp [is_bin_op] at h <;> rfl

/-- A strict unary operator is not short-circuit. -/
theorem not_nary_of_un (op : Op) (h : is_un_op op = true) :
    is_nary_op op = false := by
  cases op <;> simp [is_un_op] at h <;> rfl

/-- A null-tolerant unary operator is not short-circuit. -/
theorem not_nary_of_tolerant (op : Op) (h : is_tolerant_op op = true) :
    is_nary_op op = false := by
  cases op <;> simp [is_tolerant_op] at h <;> rfl

/-- `Const(Null)` detection on a wrapped constant is the `Null` test of the
wrapped value. -/
theorem is_const_null_const (v : Value) :
    is_const_null (.Const v) = is_vnull v := by
  cases v <;> rfl

/-- The short-circuit specialized nodes distribute `has_spec_apply`. -/
theorem nary_node_spec (op : Op) : BinCtorSpec (nary_node op) := by
  cases op <;> intro x y <;> simp [nary_node, has_spec_apply]

/-- `partial_eval` on a generic application of a non-short-circuit operator
enters the argument loop after the arity check. -/
theorem peval_apply_notnary (ctx : ExprEvalContext) (fuel : Nat) (op : Op)
    (h : is_nary_op op = false) (args : List Expr) :
    partial_eval ctx fuel (.Apply op args) =
      if arity_ok op args.length then peval_apply_go ctx fuel op args false []
      else .error (.err (.arityMismatch (op_name op) args.length)) := by
  cases op <;> simp [is_nary_op] at h <;> simp [partial_eval]

/-- `partial_eval` on a generic application of a short-circuit operator
enters the three-valued folding loop after the arity check. -/
theorem peval_apply_scgo (ctx : ExprEvalContext) (fuel : Nat) (op : Op)
    (h : is_nary_op op = true) (args : List Expr) :
    partial_eval ctx fuel (.Apply op args) =
      if arity_ok op args.length then peval_sc_go ctx fuel op args (sc_init op)
      else .error (.err (.arityMismatch (op_name op) args.length)) := by
  cases op <;> simp [is_nary_op] at h <;> simp [partial_eval]

/-- `partial_eval` of a field access whose argument lies in the foldable
fragment (hence is not a `Variable`) evaluates the argument and
post-processes the result. -/
theorem peval_field_acc_red (ctx : ExprEvalContext) (fuel : Nat) (f : String)
    (a : Expr) (hf : foldable a = true) :
    partial_eval ctx fuel (.FieldAcc f a) =
      match partial_eval ctx fuel a with
      | .ok a' => field_acc_post f a'
      | .error e => .error e := by
  cases a
  case Variable => simp [foldable] at hf
  all_goals simp [partial_eval]

mutual

/-- Expressions of the foldable fragment satisfy the optimizer's
argument-count precondition. -/
theorem foldable_sufficient : ∀ e, foldable e = true → args_sufficient e = true
  | .Const _, _ => by simp [args_sufficient]
  | .Variable _, hf => by simp [foldable] at hf
  | .TableCol _ _, hf => by simp [foldable] at hf
  | .TupleSetIdx _, hf => by simp [foldable] at hf
  | .List _, hf => by simp [foldable] at hf
  | .Dict _, hf => by simp [foldable] at hf
  | .Apply op args, hf => by
      simp only [foldable, Bool.and_eq_true] at hf
      have h1 := hf.1
      simp only [args_exact_at, Bool.and_eq_true, decide_eq_true_eq] at h1
      simp only [args_sufficient, Bool.and_eq_true, decide_eq_true_eq]
      exact ⟨h1.2, foldable_sufficient_list args hf.2⟩
  | .ApplyAgg _ _ _, hf => by simp [foldable] at hf
  | .FieldAcc f a, hf => by
      simp only [foldable] at hf
      simpa [args_sufficient] using foldable_sufficient a hf
  | .IdxAcc i a, hf => by
      simp only [foldable] at hf
      simpa [args_sufficient] using foldable_sufficient a hf
  | .IfExpr _ _ _, hf => by simp [foldable] at hf
  | .SwitchExpr _, hf => by simp [foldable] at hf
  | .Add _ _, hf => by simp [foldable] at hf
  | .Sub _ _, hf => by simp [foldable] at hf
  | .Mul _ _, hf => by simp [foldable] at hf
  | .Div _ _, hf => by simp [foldable] at hf
  | .Pow _ _, hf => by simp [foldable] at hf
  | .Mod _ _, hf => by simp [foldable] at hf
  | .StrCat _ _, hf => by simp [foldable] at hf
  | .Eq _ _, hf => by simp [foldable] at hf
  | .Ne _ _, hf => by simp [foldable] at hf
  | .Gt _ _, hf => by simp [foldable] at hf
  | .Ge _ _, hf => by simp [foldable] at hf
  | .Lt _ _, hf => by simp [foldable] at hf
  | .Le _ _, hf => by simp [foldable] at hf
  | .Not _, hf => by simp [foldable] at hf
  | .Minus _, hf => by simp [foldable] at hf
  | .IsNull _, hf => by simp [foldable] at hf
  | .NotNull _, hf => by simp [foldable] at hf
  | .Coalesce _ _, hf => by simp [foldable] at hf
  | .Or _ _, hf => by simp [foldable] at hf
  | .And _ _, hf => by simp [foldable] at hf
termination_by e => sizeOf e

/-- `foldable_sufficient` over argument lists. -/
theorem foldable_sufficient_list : ∀ l, foldable_list l = true →
    args_sufficient_list l = true
  | [], _ => by simp [args_sufficient_list]
  | a :: as, hf => by
      simp only [foldable_list, Bool.and_eq_true] at hf
      simp only [args_sufficient_list, Bool.and_eq_true]
      exact ⟨foldable_sufficient a hf.1, foldable_sufficient_list as hf.2⟩
termination_by l => sizeOf l

end

/-- A decided accumulator value propagates through the whole optimized
left-associative short-circuit chain. -/
theorem row_fold_absorb (op : Op) (hn : is_nary_op op = true) :
    ∀ (rest : List Expr) (accE : Expr) (acc : Value) (r : Expr),
    sc_decided op acc = true →
    (∀ rctx, row_eval rctx accE = .ok acc) →
    opt_fold (nary_node op) accE rest = .ok r →
    ∀ rctx, row_eval rctx r = .ok acc := by
  intro rest
  induction rest with
  | nil =>
      intro accE acc r hd hacc hopt rctx
      simp only [opt_fold, Except.ok.injEq] at hopt
      subst hopt
      exact hacc rctx
  | cons a rest ih =>
      intro accE acc r hd hacc hopt rctx
      simp only [opt_fold] at hopt
      cases hA : optimize_ops a
      case error =>
        simp only [hA] at hopt
        exact absurd hopt (by simp)
      case ok a' =>
        simp only [hA] at hopt
        refine ih (nary_node op accE a') acc r hd ?_ hopt rctx
        intro rctx'
        rw [row_eval_nary_node_ok op hn rctx' accE a' acc (hacc rctx')]
        simp only [hd, if_true]

mutual

/-- On the foldable fragment a successful `partial_eval` yields a constant,
the optimizer succeeds, and row-evaluating the optimized tree under any row
context yields that same constant. -/
theorem fold_const : ∀ (ctx : ExprEvalContext) (fuel : Nat) (e r : Expr),
    foldable e = true → partial_eval ctx fuel e = .ok r →
    ∃ v e', r = .Const v ∧ optimize_ops e = .ok e' ∧
      ∀ rctx, row_eval rctx e' = .ok v
  | ctx, fuel, .Const w, r, _, hr => by
      simp only [partial_eval, Except.ok.injEq] at hr
      refine ⟨w, .Const w, hr.symm, by simp [optimize_ops], ?_⟩
      intro rctx
      simp [row_eval]
  | ctx, fuel, .Variable x, r, hf, hr => by simp [foldable] at hf
  | ctx, fuel, .TableCol t c, r, hf, hr => by simp [foldable] at hf
  | ctx, fuel, .TupleSetIdx i, r, hf, hr => by simp [foldable] at hf
  | ctx, fuel, .List l, r, hf, hr => by simp [foldable] at hf
  | ctx, fuel, .Dict d, r, hf, hr => by simp [foldable] at hf
  | ctx, fuel, .ApplyAgg op aArgs args, r, hf, hr => by simp [foldable] at hf
  | ctx, fuel, .IfExpr c t e, r, hf, hr => by simp [foldable] at hf
  | ctx, fuel, .SwitchExpr ps, r, hf, hr => by simp [foldable] at hf
  | ctx, fuel, .Add a b, r, hf, hr => by simp [foldable] at hf
  | ctx, fuel, .Sub a b, r, hf, hr => by simp [foldable] at hf
  | ctx, fuel, .Mul a b, r, hf, hr => by simp [foldable] at hf
  | ctx, fuel, .Div a b, r, hf, hr => by simp [foldable] at hf
  | ctx, fuel, .Pow a b, r, hf, hr => by simp [foldable] at hf
  | ctx, fuel, .Mod a b, r, hf, hr => by simp [foldable] at hf
  | ctx, fuel, .StrCat a b, r, hf, hr => by simp [foldable] at hf
  | ctx, fuel, .Eq a b, r, hf, hr => by simp [foldable] at hf
  | ctx, fuel, .Ne a b, r, hf, hr => by simp [foldable] at hf
  | ctx, fuel, .Gt a b, r, hf, hr => by simp [foldable] at hf
  | ctx, fuel, .Ge a b, r, hf, hr => by simp [foldable] at hf
  | ctx, fuel, .Lt a b, r, hf, hr => by simp [foldable] at hf
  | ctx, fuel, .Le a b, r, hf, hr => by simp [foldable] at hf
  | ctx, fuel, .Not a, r, hf, hr => by simp [foldable] at hf
  | ctx, fuel, .Minus a, r, hf, hr => by simp [foldable] at hf
  | ctx, fuel, .IsNull a, r, hf, hr => by simp [foldable] at hf
  | ctx, fuel, .NotNull a, r, hf, hr => by simp [foldable] at hf
  | ctx, fuel, .Coalesce a b, r, hf, hr => by simp [foldable] at hf
  | ctx, fuel, .Or a b, r, hf, hr => by simp [foldable] at hf
  | ctx, fuel, .And a b, r, hf, hr => by simp [foldable] at hf
  | ctx, fuel, .FieldAcc f a, r, hf, hr => by
      simp only [foldable] at hf
      rw [peval_field_acc_red ctx fuel f a hf] at hr
      cases hA : partial_eval ctx fuel a
      case error =>
        simp only [hA] at hr
        exact absurd hr (by simp)
      case ok a₀ =>
        obtain ⟨w, a', ha, hoptA, hrowA⟩ := fold_const ctx fuel a a₀ hf hA
        subst ha
        simp only [hA] at hr
        have hopt : optimize_ops (.FieldAcc f a) = .ok (.FieldAcc f a') := by
          simp [optimize_ops, hoptA]
        cases w
        case Null =>
          simp only [field_acc_post, Except.ok.injEq] at hr
          refine ⟨.Null, .FieldAcc f a', hr.symm, hopt, ?_⟩
          intro rctx
          simp [row_eval, hrowA rctx]
        case Dict d =>
          simp only [field_acc_post, Except.ok.injEq] at hr
          refine ⟨dict_remove d f, .FieldAcc f a', hr.symm, hopt, ?_⟩
          intro rctx
          simp [row_eval, hrowA rctx]
        all_goals simp [field_acc_post] at hr
  | ctx, fuel, .IdxAcc i a, r, hf, hr => by
      simp only [foldable] at hf
      simp only [partial_eval] at hr
      cases hA : partial_eval ctx fuel a
      case error =>
        simp only [hA] at hr
        exact absurd hr (by simp)
      case ok a₀ =>
        obtain ⟨w, a', ha, hoptA, hrowA⟩ := fold_const ctx fuel a a₀ hf hA
        subst ha
        simp only [hA] at hr
        have hopt : optimize_ops (.IdxAcc i a) = .ok (.IdxAcc i a') := by
          simp [optimize_ops, hoptA]
        cases w
        case Null =>
          simp only [idx_acc_post, Except.ok.injEq] at hr
          refine ⟨.Null, .IdxAcc i a', hr.symm, hopt, ?_⟩
          intro rctx
          simp [row_eval, hrowA rctx]
        case List l =>
          simp only [idx_acc_post, Except.ok.injEq] at hr
          refine ⟨(l[i]?).getD .Null, .IdxAcc i a', hr.symm, hopt, ?_⟩
          intro rctx
          simp [row_eval, hrowA rctx]
        all_goals simp [idx_acc_post] at hr
  | ctx, fuel, .Apply op args, r, hf, hr => by
      simp only [foldable, Bool.and_eq_true] at hf
      have h1 := hf.1
      simp only [args_exact_at, Bool.and_eq_true] at h1
      rcases op_families op with hfam | hfam | hfam | hfam
      · have hlen := exact_len_bin op hfam args.length hf.1
        cases args with
        | nil => simp at hlen
        | cons a rest =>
          cases rest with
          | nil => simp at hlen
          | cons b rest2 =>
            cases rest2 with
            | cons c rest3 => simp at hlen
            | nil =>
              simp only [foldable_list, Bool.and_eq_true, Bool.and_true] at hf
              rw [peval_apply_notnary ctx fuel op (not_nary_of_bin op hfam)] at hr
              simp only [h1.1, if_true] at hr
              have hnn := non_null_of_bin op hfam
              simp only [peval_apply_go, hnn, Bool.true_and, List.nil_append] at hr
              cases hA : partial_eval ctx fuel a
              case error =>
                simp only [hA] at hr
                exact absurd hr (by simp)
              case ok a₀ =>
                obtain ⟨va, a', ha, hoptA, hrowA⟩ := fold_const ctx fuel a a₀ hf.2.1 hA
                subst ha
                simp only [hA, is_const, Bool.not_true, Bool.false_eq_true, if_false,
                  is_const_null_const] at hr
                cases hva : is_vnull va
                case true =>
                  simp only [hva, if_true, Except.ok.injEq] at hr
                  obtain ⟨b', hoptB, -⟩ := opt_total b (foldable_sufficient b hf.2.2)
                  refine ⟨.Null, bin_node op a' b', hr.symm, ?_, ?_⟩
                  · rw [opt_apply_bin op hfam]
                    simp only [opt_bin, hoptA, hoptB]
                  · intro rctx
                    rw [row_eval_bin_node_ok op hfam rctx a' b' va (hrowA rctx)]
                    simp only [hva, if_true]
                case false =>
                  simp only [hva, Bool.false_eq_true, if_false] at hr
                  cases hB : partial_eval ctx fuel b
                  case error =>
                    simp only [hB] at hr
                    exact absurd hr (by simp)
                  case ok b₀ =>
                    obtain ⟨vb, b', hb, hoptB, hrowB⟩ := fold_const ctx fuel b b₀ hf.2.2 hB
                    subst hb
                    simp only [hB, is_const, Bool.not_true, Bool.false_eq_true, if_false,
                      is_const_null_const] at hr
                    cases hvb : is_vnull vb
                    case true =>
                      simp only [hvb, if_true, Except.ok.injEq] at hr
                      refine ⟨.Null, bin_node op a' b', hr.symm, ?_, ?_⟩
                      · rw [opt_apply_bin op hfam]
                        simp only [opt_bin, hoptA, hoptB]
                      · intro rctx
                        rw [row_eval_bin_node_ok op hfam rctx a' b' va (hrowA rctx)]
                        simp only [hva, Bool.false_eq_true, if_false, hrowB rctx, hvb,
                          if_true]
                    case false =>
                      simp only [hvb, Bool.false_eq_true, if_false, List.cons_append,
                        List.nil_append, consts_of] at hr
                      rw [op_eval_bin op hfam] at hr
                      cases hE : eval_two_non_null op va vb
                      case error =>
                        simp only [hE] at hr
                        exact absurd hr (by simp)
                      case ok v =>
                        simp only [hE, Except.ok.injEq] at hr
                        refine ⟨v, bin_node op a' b', hr.symm, ?_, ?_⟩
                        · rw [opt_apply_bin op hfam]
                          simp only [opt_bin, hoptA, hoptB]
                        · intro rctx
                          rw [row_eval_bin_node_ok op hfam rctx a' b' va (hrowA rctx)]
                          simp only [hva, Bool.false_eq_true, if_false, hrowB rctx, hvb]
                          rw [liftE_ok]
                          exact hE
      · have hlen := exact_len_un op hfam args.length hf.1
        cases args with
        | nil => simp at hlen
        | cons a rest =>
          cases rest with
          | cons b rest2 => simp at hlen
          | nil =>
            simp only [foldable_list, Bool.and_eq_true, Bool.and_true] at hf
            rw [peval_apply_notnary ctx fuel op (not_nary_of_un op hfam)] at hr
            simp only [h1.1, if_true] at hr
            have hnn := non_null_of_un op hfam
            simp only [peval_apply_go, hnn, Bool.true_and, List.nil_append] at hr
            cases hA : partial_eval ctx fuel a
            case error =>
              simp only [hA] at hr
              exact absurd hr (by simp)
            case ok a₀ =>
              obtain ⟨va, a', ha, hoptA, hrowA⟩ := fold_const ctx fuel a a₀ hf.2 hA
              subst ha
              simp only [hA, is_const, Bool.not_true, Bool.false_eq_true, if_false,
                is_const_null_const, consts_of] at hr
              rw [op_eval_un op hfam] at hr
              cases hva : is_vnull va
              case true =>
                simp only [hva, if_true, Except.ok.injEq] at hr
                refine ⟨.Null, un_node op a', hr.symm, ?_, ?_⟩
                · rw [opt_apply_un op hfam]
                  simp only [opt_un, hoptA]
                · intro rctx
                  rw [row_eval_un_node_ok op hfam rctx a' va (hrowA rctx)]
                  simp only [hva, if_true]
              case false =>
                simp only [hva, Bool.false_eq_true, if_false] at hr
                cases hE : eval_one_non_null op va
                case error =>
                  simp only [hE] at hr
                  exact absurd hr (by simp)
                case ok v =>
                  simp only [hE, Except.ok.injEq] at hr
                  refine ⟨v, un_node op a', hr.symm, ?_, ?_⟩
                  · rw [opt_apply_un op hfam]
                    simp only [opt_un, hoptA]
                  · intro rctx
                    rw [row_eval_un_node_ok op hfam rctx a' va (hrowA rctx)]
                    simp only [hva, Bool.false_eq_true, if_false]
                    rw [liftE_ok]
                    exact hE
      · have hlen := exact_len_tolerant op hfam args.length hf.1
        cases args with
        | nil => simp at hlen
        | cons a rest =>
          cases rest with
          | cons b rest2 => simp at hlen
          | nil =>
            simp only [foldable_list, Bool.and_eq_true, Bool.and_true] at hf
            rw [peval_apply_notnary ctx fuel op (not_nary_of_tolerant op hfam)] at hr
            simp only [h1.1, if_true] at hr
            have hnn := non_null_of_tolerant op hfam
            simp only [peval_apply_go, hnn, Bool.false_and, Bool.false_eq_true, if_false,
              List.nil_append] at hr
            cases hA : partial_eval ctx fuel a
            case error =>
              simp only [hA] at hr
              exact absurd hr (by simp)
            case ok a₀ =>
              obtain ⟨va, a', ha, hoptA, hrowA⟩ := fold_const ctx fuel a a₀ hf.2 hA
              subst ha
              simp only [hA, is_const, Bool.not_true, Bool.false_eq_true, if_false,
                consts_of] at hr
              rw [op_eval_tolerant op hfam] at hr
              cases hE : eval_one op va
              case error =>
                simp only [hE] at hr
                exact absurd hr (by simp)
              case ok v =>
                simp only [hE, Except.ok.injEq] at hr
                refine ⟨v, tolerant_node op a', hr.symm, ?_, ?_⟩
                · rw [opt_apply_tolerant op hfam]
                  simp only [opt_un, hoptA]
                · intro rctx
                  rw [row_eval_tolerant_node_ok op hfam rctx a' va (hrowA rctx)]
                  rw [liftE_ok]
                  exact hE
      · have hlen := exact_len_nary op hfam args.length hf.1
        cases args with
        | nil => simp at hlen
        | cons a rest =>
          simp only [foldable_list, Bool.and_eq_true] at hf
          rw [peval_apply_scgo ctx fuel op hfam] at hr
          simp only [h1.1, if_true] at hr
          simp only [peval_sc_go] at hr
          cases hA : partial_eval ctx fuel a
          case error =>
            simp only [hA] at hr
            exact absurd hr (by simp)
          case ok a₀ =>
            obtain ⟨v₁, a', ha, hoptA, hrowA⟩ := fold_const ctx fuel a a₀ hf.2.1 hA
            subst ha
            simp only [hA] at hr
            cases hS : sc_step op (sc_init op) v₁
            case error =>
              simp only [hS] at hr
              exact absurd hr (by simp)
            case ok w =>
              simp only [hS] at hr
              have hw := sc_step_init_ok op hfam v₁ w hS
              subst hw
              have hoptHead : optimize_ops (.Apply op (a :: rest)) =
                  opt_fold (nary_node op) a' rest := by
                rw [opt_apply_nary op hfam]
                simp only [opt_nary, hoptA]
              cases hd : sc_decided op w
              case true =>
                simp only [hd, if_true, Except.ok.injEq] at hr
                obtain ⟨e', hof, -⟩ := opt_fold_total (nary_node op) (nary_node_spec op)
                  a' rest (foldable_sufficient_list rest hf.2.2)
                refine ⟨w, e', hr.symm, by rw [hoptHead]; exact hof, ?_⟩
                exact row_fold_absorb op hfam rest a' w e' hd hrowA hof
              case false =>
                simp only [hd, Bool.false_eq_true, if_false] at hr
                obtain ⟨v, e', hrv, hof, hrow⟩ := fold_sc ctx fuel op hfam rest w a' r
                  hf.2.2 hd hrowA hr
                exact ⟨v, e', hrv, by rw [hoptHead]; exact hof, hrow⟩
termination_by ctx fuel e r => sizeOf e

/-- The three-valued folding loop of `partial_eval` on foldable arguments
agrees with row evaluation of the optimized left-associative chain. -/
theorem fold_sc : ∀ (ctx : ExprEvalContext) (fuel : Nat) (op : Op),
    is_nary_op op = true →
    ∀ (args : List Expr) (acc : Value) (accE : Expr) (r : Expr),
    foldable_list args = true → sc_decided op acc = false →
    (∀ rctx, row_eval rctx accE = .ok acc) →
    peval_sc_go ctx fuel op args acc = .ok r →
    ∃ v e', r = .Const v ∧ opt_fold (nary_node op) accE args = .ok e' ∧
      ∀ rctx, row_eval rctx e' = .ok v
  | ctx, fuel, op, hn, [], acc, accE, r, _, _, hacc, hr => by
      simp only [peval_sc_go, Except.ok.injEq] at hr
      exact ⟨acc, accE, hr.symm, by simp [opt_fold], hacc⟩
  | ctx, fuel, op, hn, a :: rest, acc, accE, r, hfl, hnd, hacc, hr => by
      simp only [foldable_list, Bool.and_eq_true] at hfl
      simp only [peval_sc_go] at hr
      cases hA : partial_eval ctx fuel a
      case error =>
        simp only [hA] at hr
        exact absurd hr (by simp)
      case ok a₀ =>
        obtain ⟨v₁, a', ha, hoptA, hrowA⟩ := fold_const ctx fuel a a₀ hfl.1 hA
        subst ha
        simp only [hA] at hr
        cases hS : sc_step op acc v₁
        case error =>
          simp only [hS] at hr
          exact absurd hr (by simp)
        case ok w =>
          simp only [hS] at hr
          have hcont := sc_step_ok_continue op hn acc v₁ w hS hnd
          have haccE' : ∀ rctx, row_eval rctx (nary_node op accE a') = .ok w := by
            intro rctx
            rw [row_eval_nary_node_ok op hn rctx accE a' acc (hacc rctx)]
            simp only [hnd, Bool.false_eq_true, if_false, hcont, if_true, hrowA rctx]
            rw [liftE_ok]
            exact hS
          have hoptStep : opt_fold (nary_node op) accE (a :: rest) =
              opt_fold (nary_node op) (nary_node op accE a') rest := by
            simp only [opt_fold, hoptA]
          cases hd : sc_decided op w
          case true =>
            simp only [hd, if_true, Except.ok.injEq] at hr
            obtain ⟨e', hof, -⟩ := opt_fold_total (nary_node op) (nary_node_spec op)
              (nary_node op accE a') rest (foldable_sufficient_list rest hfl.2)
            refine ⟨w, e', hr.symm, by rw [hoptStep]; exact hof, ?_⟩
            exact row_fold_absorb op hn rest (nary_node op accE a') w e' hd haccE' hof
          case false =>
            simp only [hd, Bool.false_eq_true, if_false] at hr
            obtain ⟨v, e', hrv, hof, hrow⟩ := fold_sc ctx fuel op hn rest w
              (nary_node op accE a') r hfl.2 hd haccE' hr
            exact ⟨v, e', hrv, by rw [hoptStep]; exact hof, hrow⟩
termination_by ctx fuel op hn args acc accE r => sizeOf args

end

set_option maxHeartbeats 200000

/-! ## The claims -/

/-- C1: refuted as stated — the generic `Apply` loop of `partial_eval`
(`src/data/eval.rs:170-194`) drops non-constant arguments: on
`add(tuple_slot, 1)` the residual first argument only sets
`has_unevaluated` and is never pushed onto `eval_args`, so the returned
residual application keeps the constant argument alone instead of both
arguments in order. -/
theorem C1_apply_drops_residual_args :
    partial_eval nullExprCtx 0
        (.Apply .add [.TupleSetIdx ⟨true, 0, 0⟩, .Const (.Int 1)]) =
      .ok (.Apply .add [.Const (.Int 1)]) := by
  simp [partial_eval, peval_apply_go, arity_ok, op_arity, is_const,
    is_const_null, non_null_args, consts_of, op_eval]

/-- C2: the claim's exact-preservation statement is refuted by
`C2_not_semantics_preserving`; amended here: on post-parse trees (every
`Apply` matching its operator's exact arity) optimization preserves every
successful row evaluation — the optimizer can only turn errors into
successes (through short-circuiting), never change a returned value. -/
theorem C2_optimize_preserves_success (ctx : RowEvalContext) (e e' : Expr)
    (v : Value) (hex : args_exact e = true) (hopt : optimize_ops e = .ok e')
    (hrow : row_eval ctx e = .ok v) : row_eval ctx e' = .ok v :=
  preserve ctx e e' v hex hopt hrow

/-- C2: counterexample to exact preservation — `or(true, slot)` errors on
the unresolvable tuple slot under the generic argument loop, which
evaluates every argument, while its optimized form `Or(true, slot)`
short-circuits on `true` and succeeds. -/
theorem C2_not_semantics_preserving :
    row_eval nullRowCtx
        (.Apply .opOr [.Const (.Bool true), .TupleSetIdx ⟨true, 0, 0⟩]) =
      .error (.err (.unresolveTupleIdx ⟨true, 0, 0⟩)) ∧
    optimize_ops (.Apply .opOr [.Const (.Bool true), .TupleSetIdx ⟨true, 0, 0⟩]) =
      .ok (.Or (.Const (.Bool true)) (.TupleSetIdx ⟨true, 0, 0⟩)) ∧
    row_eval nullRowCtx (.Or (.Const (.Bool true)) (.TupleSetIdx ⟨true, 0, 0⟩)) =
      .ok (.Bool true) := by
  refine ⟨?_, ?_, ?_⟩
  · simp [row_eval, row_apply_go, non_null_args, is_vnull, nullRowCtx, liftE]
  · simp [optimize_ops, opt_nary, opt_fold]
  · simp [row_eval, sc_decided]

/-- C2: witness — the amended preservation applied at `or(false, true)`,
which evaluates to `true` before and after optimization. -/
theorem C2_optimize_preserves_success_witness :
    row_eval nullRowCtx (.Or (.Const (.Bool false)) (.Const (.Bool true))) =
      .ok (.Bool true) :=
  C2_optimize_preserves_success nullRowCtx
    (.Apply .opOr [.Const (.Bool false), .Const (.Bool true)])
    (.Or (.Const (.Bool false)) (.Const (.Bool true))) (.Bool true)
    (by simp [args_exact, args_exact_list, args_exact_at, arity_ok, op_arity,
      op_min_args])
    (by simp [optimize_ops, opt_nary, opt_fold])
    (by simp [row_eval, row_apply_go, non_null_args, is_vnull, op_eval,
      sc_fold, or3, liftE])

/-- C3: refuted — `row_eval` on any `ApplyAgg` node hits the `todo!()` of
`src/data/eval.rs:373`: a process panic (modelled as `Fail.panicked`), not
an error value reported as data. -/
theorem C3_applyagg_panics (ctx : RowEvalContext) (op : AggOp)
    (aArgs args : List Expr) :
    row_eval ctx (.ApplyAgg op aArgs args) =
      .error (.panicked "not yet implemented") := by
  simp [row_eval]

/-- C4: the infallibility claim is refuted by
`C4_optimize_panics_on_short_args`; amended here: `optimize_ops` is total
on every tree whose `Apply` nodes all carry at least the minimal argument
count their operator requires. -/
theorem C4_optimize_total_on_sufficient_args (e : Expr)
    (h : args_sufficient e = true) : ∃ e', optimize_ops e = .ok e' := by
  obtain ⟨e', he, -⟩ := opt_total e h
  exact ⟨e', he⟩

/-- C4: counterexample — `optimize_ops` panics via the `unwrap` of
`extract_optimized_bin_args` (`src/data/eval.rs:69-75`) on a
specialized-named application with too few arguments. -/
theorem C4_optimize_panics_on_short_args :
    optimize_ops (.Apply .add []) =
      .error (.panicked "unwrap on missing argument") := by
  simp [optimize_ops, opt_bin]

/-- C4: witness — totality applied at a well-formed binary application. -/
theorem C4_optimize_total_on_sufficient_args_witness :
    ∃ e', optimize_ops (.Apply .add [.Const (.Int 1), .Const (.Int 2)]) = .ok e' :=
  C4_optimize_total_on_sufficient_args
    (.Apply .add [.Const (.Int 1), .Const (.Int 2)])
    (by simp [args_sufficient, args_sufficient_list, op_min_args, op_arity])

/-- C5: refuted — partial evaluation is not idempotent on
variable-free expressions: the first pass on `add(tuple_slot, 1)` succeeds
with the residual `add(1)` (the residual argument is dropped), and
re-running partial evaluation on that output fails the arity check instead
of returning the same tree. -/
theorem C5_not_idempotent :
    partial_eval nullExprCtx 0
        (.Apply .add [.TupleSetIdx ⟨true, 0, 0⟩, .Const (.Int 1)]) =
      .ok (.Apply .add [.Const (.Int 1)]) ∧
    partial_eval nullExprCtx 0 (.Apply .add [.Const (.Int 1)]) =
      .error (.err (.arityMismatch "+" 1)) := by
  constructor
  · simp [partial_eval, peval_apply_go, arity_ok, op_arity, is_const,
      is_const_null, non_null_args, consts_of, op_eval]
  · simp [partial_eval, arity_ok, op_arity, op_name]

/-- C6: the unconditional folding claim is refuted by
`C6_closed_not_always_const`; amended here: on the foldable fragment
(constants, exact-arity applications, field and index accesses), whenever
`partial_eval` succeeds its result is some constant `Const v`,
`optimize_ops` succeeds, and row evaluation of the optimized tree returns
that same `v` under every row context. -/
theorem C6_closed_folding (ctx : ExprEvalContext) (fuel : Nat) (e r : Expr)
    (hf : foldable e = true) (hr : partial_eval ctx fuel e = .ok r) :
    ∃ v e', r = .Const v ∧ optimize_ops e = .ok e' ∧
      ∀ rctx, row_eval rctx e' = .ok v :=
  fold_const ctx fuel e r hf hr

/-- C6: counterexample — a closed expression (no `Variable`, `TableCol`,
`TupleSetIdx` or `ApplyAgg`) need not partial-evaluate to a constant: a
`List` literal of constants partial-evaluates to a `List` node, not a
`Const`, and a closed division by zero makes `partial_eval` fail
outright. -/
theorem C6_closed_not_always_const :
    partial_eval nullExprCtx 0 (.List [.Const (.Int 1)]) =
      .ok (.List [.Const (.Int 1)]) ∧
    is_const (.List [.Const (.Int 1)]) = false ∧
    partial_eval nullExprCtx 0 (.Apply .div [.Const (.Int 1), .Const (.Int 0)]) =
      .error (.err (.opTypeMismatch "/" [.Int 1, .Int 0])) := by
  refine ⟨?_, rfl, ?_⟩
  · simp [partial_eval, peval_list]
  · simp [partial_eval, peval_apply_go, arity_ok, op_arity, is_const,
      is_const_null, non_null_args, consts_of, op_eval, eval_two_non_null, vdiv]

/-- C6: witness — folding applied at `add(1, 2)`. -/
theorem C6_closed_folding_witness :
    ∃ v e', (Expr.Const (.Int 3) : Expr) = .Const v ∧
      optimize_ops (.Apply .add [.Const (.Int 1), .Const (.Int 2)]) = .ok e' ∧
      ∀ rctx, row_eval rctx e' = .ok v :=
  C6_closed_folding nullExprCtx 0 (.Apply .add [.Const (.Int 1), .Const (.Int 2)])
    (.Const (.Int 3))
    (by simp [foldable, foldable_list, args_exact_at, arity_ok, op_arity,
      op_min_args])
    (by simp [partial_eval, peval_apply_go, arity_ok, op_arity, is_const,
      is_const_null, non_null_args, consts_of, op_eval, eval_two_non_null, vadd])

/-- C7: the evaluate-both-operands claim is refuted by
`C7_second_operand_skipped`; amended here: a specialized binary node
evaluates its first operand, a `Null` there short-circuits to `Null`
without touching the second operand; otherwise the second operand is
evaluated, `Null` again yields `Null`, else the operator's
`eval_two_non_null` decides — so an error from the second operand is
surfaced only when the first operand is non-`Null`. -/
theorem C7_bin_node_short_circuits (op : Op) (hb : is_bin_op op = true)
    (ctx : RowEvalContext) (a b : Expr) :
    row_eval ctx (bin_node op a b) =
      match row_eval ctx a with
      | .error e => .error e
      | .ok va =>
          if is_vnull va then .ok .Null
          else
            match row_eval ctx b with
            | .error e => .error e
            | .ok vb =>
                if is_vnull vb then .ok .Null
                else liftE (eval_two_non_null op va vb) :=
  row_eval_bin_node op hb ctx a b

/-- C7: counterexample — the specialized binary nodes do not always
evaluate both operands: `Add(Null, slot)` returns `Null` without surfacing
the slot's error, although evaluating that slot alone errors. -/
theorem C7_second_operand_skipped :
    row_eval nullRowCtx (.Add (.Const .Null) (.TupleSetIdx ⟨true, 0, 0⟩)) =
      .ok .Null ∧
    row_eval nullRowCtx (.TupleSetIdx ⟨true, 0, 0⟩) =
      .error (.err (.unresolveTupleIdx ⟨true, 0, 0⟩)) := by
  constructor
  · simp [row_eval]
  · simp [row_eval, nullRowCtx, liftE]

/-- C7: witness — the short-circuit shape applied at
`Add(Null, slot)` under the trivial row context. -/
theorem C7_bin_node_short_circuits_witness :
    row_eval nullRowCtx (bin_node .add (.Const .Null) (.TupleSetIdx ⟨true, 0, 0⟩)) =
      match row_eval nullRowCtx (.Const .Null) with
      | .error e => .error e
      | .ok va =>
          if is_vnull va then .ok .Null
          else
            match row_eval nullRowCtx (.TupleSetIdx ⟨true, 0, 0⟩) with
            | .error e => .error e
            | .ok vb =>
                if is_vnull vb then .ok .Null
                else liftE (eval_two_non_null .add va vb) :=
  C7_bin_node_short_circuits .add (by simp [is_bin_op]) nullRowCtx
    (.Const .Null) (.TupleSetIdx ⟨true, 0, 0⟩)

/-- C8: the no-specialized-name invariant is refuted on pre-existing
specialized nodes by `C8_spec_apply_survives`; amended here: on
parser-shaped trees (no pre-existing specialized node, sufficient
arguments) the optimizer's output contains no `Apply` bearing a
specialized operator name, and the short-circuit operators fold their
argument lists left-associatively: `[a,b,c,d]` becomes
`Op(Op(Op(a,b),c),d)`. -/
theorem C8_post_optimize_shape :
    (∀ e, args_sufficient e = true → no_spec_node e = true →
      ∃ e', optimize_ops e = .ok e' ∧ has_spec_apply e' = false) ∧
    (∀ (op : Op), is_nary_op op = true →
      ∀ (a b c d a' b' c' d' : Expr), optimize_ops a = .ok a' →
      optimize_ops b = .ok b' → optimize_ops c = .ok c' →
      optimize_ops d = .ok d' →
      optimize_ops (.Apply op [a, b, c, d]) =
        .ok (nary_node op (nary_node op (nary_node op a' b') c') d')) := by
  constructor
  · intro e hs hn
    obtain ⟨e', he, hspec⟩ := opt_total e hs
    exact ⟨e', he, hspec hn⟩
  · intro op hn a b c d a' b' c' d' ha hb hc hd
    rw [opt_apply_nary op hn]
    simp only [opt_nary, opt_fold, ha, hb, hc, hd]

/-- C8: counterexample — `optimize_ops` passes pre-existing specialized
nodes through without recursing into their children: an `And` node
wrapping a generic `Apply("+")` keeps that specialized-named `Apply` in
its output. -/
theorem C8_spec_apply_survives :
    optimize_ops
        (.And (.Apply .add [.Const (.Int 1), .Const (.Int 1)]) (.Const (.Bool true))) =
      .ok (.And (.Apply .add [.Const (.Int 1), .Const (.Int 1)])
        (.Const (.Bool true))) ∧
    has_spec_apply
        (.And (.Apply .add [.Const (.Int 1), .Const (.Int 1)]) (.Const (.Bool true))) =
      true := by
  constructor
  · simp [optimize_ops]
  · simp [has_spec_apply, has_spec_apply_list, is_spec_name, op_name]

/-- C9: confirmed — structural field access in both evaluators: on a
realized `Dict` the value stored under the key (`Null` when the key is
absent), on `Null` the result is `Null`, and on any other realized value
(scalar or list) a `FieldAccess` error. -/
theorem C9_field_access :
    (∀ (ctx : ExprEvalContext) (fuel : Nat) (f : String) (w : Value),
      partial_eval ctx fuel (.FieldAcc f (.Const w)) =
        match w with
        | .Null => .ok (.Const .Null)
        | .Dict d => .ok (.Const ((d.lookup f).getD .Null))
        | w => .error (.err (.fieldAccess f w))) ∧
    (∀ (rctx : RowEvalContext) (f : String) (a : Expr) (w : Value),
      row_eval rctx a = .ok w →
      row_eval rctx (.FieldAcc f a) =
        match w with
        | .Null => .ok .Null
        | .Dict d => .ok ((d.lookup f).getD .Null)
        | w => .error (.err (.fieldAccess f w))) := by
  constructor
  · intro ctx fuel f w
    cases w <;> simp [partial_eval, field_acc_post, dict_remove, expr_to_value]
  · intro rctx f a w hw
    cases w <;> simp [row_eval, hw, dict_remove]

/-- C10: confirmed — `optimize_ops` is idempotent: whatever tree a first
pass returns, a second pass returns it unchanged. -/
theorem C10_optimize_idempotent (e e' : Expr) (h : optimize_ops e = .ok e') :
    optimize_ops e' = .ok e' :=
  opt_idem e e' h

/-- C10: witness — idempotence applied at the optimization of
`add(1, 2)`. -/
theorem C10_optimize_idempotent_witness :
    optimize_ops (.Add (.Const (.Int 1)) (.Const (.Int 2))) =
      .ok (.Add (.Const (.Int 1)) (.Const (.Int 2))) :=
  C10_optimize_idempotent (.Apply .add [.Const (.Int 1), .Const (.Int 2)])
    (.Add (.Const (.Int 1)) (.Const (.Int 2)))
    (by simp [optimize_ops, opt_bin])
